import Mathlib

/-!
Verification of the server-side poker engine of the Poker-Game-Rust
repository against its natural-language specification.

The Rust sources are shallowly embedded: pure functions from
`src/server/src/deck.rs`, `five_card_draw.rs`, `texas_holdem.rs` and
`seven_card_stud.rs` become Lean functions on `List`s, and the betting-round
loop of `src/server/src/five_card_game.rs` becomes a step function driven by
the list of player responses that the real loop reads from the database.
Machine integers (`i32`, `u8`) are modelled as `Int`/`Nat`; no arithmetic in
the modelled code comes near the `i32`/`u8` overflow boundaries.
-/

namespace Poker

/-- Suit of a playing card, mirroring `enum Suit` in `deck.rs`
(declaration order Hearts, Diamonds, Clubs, Spades). -/
inductive Suit
  | Hearts
  | Diamonds
  | Clubs
  | Spades
deriving DecidableEq, Repr

/-- The discriminant used by `third_card.suit as u8` in `seven_card_stud.rs`:
the declaration order of `enum Suit`. -/
def Suit.toNat : Suit → Nat
  | .Hearts => 0
  | .Diamonds => 1
  | .Clubs => 2
  | .Spades => 3

/-- `struct Card` of `deck.rs`: rank 2..=14 (J=11, Q=12, K=13, A=14) plus suit. -/
structure Card where
  rank : Nat
  suit : Suit
deriving DecidableEq, Repr

/-- Rust's `ranks.sort_unstable()` (ascending).  `sort_unstable` is an
unstable sort, but on a list of plain `u8` values every sorted permutation is
the same list, so any sorting function gives the Rust result. -/
def sortAsc (l : List Nat) : List Nat :=
  l.insertionSort (· ≤ ·)

/-- Rust's `sort_unstable_by(|a, b| b.cmp(a))` (descending). -/
def sortDesc (l : List Nat) : List Nat :=
  l.insertionSort (fun a b => b ≤ a)

/-- `hand.iter().all(|card| card.suit == hand[0].suit)` from `evaluate_hand`.
The closure is never called on an empty hand, so `hand[0]` never panics;
on a nonempty hand it is the head. -/
def isFlush (hand : List Card) : Bool :=
  match hand with
  | [] => true
  | c0 :: _ => hand.all (fun c => c.suit == c0.suit)

/-- `ranks.windows(2).all(|w| w[1] == w[0] + 1)` on the ascending sorted ranks. -/
def isChain : List Nat → Bool
  | [] => true
  | [_] => true
  | a :: b :: rest => (b == a + 1) && isChain (b :: rest)

/-- The multiset of rank multiplicities, sorted descending: the Rust code
builds `counts: HashMap<u8,u8>` and sorts `counts.values()` descending.
We read the multiplicities off the distinct ranks of the hand. -/
def countValues (ranks : List Nat) : List Nat :=
  sortDesc (ranks.dedup.map (fun r => ranks.count r))

/-- `counts.iter().find(|&(_, &v)| v == k).unwrap().0`: the rank whose
multiplicity is `k`.  In every branch where the Rust code calls this the
rank with that multiplicity is unique, so the `HashMap` iteration order is
irrelevant; out of those branches the default 0 is never produced. -/
def rankWithCount (ranks : List Nat) (k : Nat) : Nat :=
  ((ranks.dedup.filter (fun r => ranks.count r == k)).headD 0)

/-- `counts.iter().filter(|&(_, &v)| v == k).map(...)` collected and then
sorted descending, as the Rust code does for kickers and pairs. -/
def ranksWithCountDesc (ranks : List Nat) (k : Nat) : List Nat :=
  sortDesc (ranks.dedup.filter (fun r => ranks.count r == k))

/-- `evaluate_hand` from `five_card_draw.rs`: classifies a hand into
`(category, tiebreakers)`. -/
def evaluate_hand (hand : List Card) : Nat × List Nat :=
  let ranks := sortAsc (hand.map Card.rank)
  let is_straight := ranks == [2, 3, 4, 5, 14] || isChain ranks
  let count_values := countValues ranks
  if isFlush hand && is_straight then
    if ranks.headD 0 == 10 then (10, [])
    else (9, [ranks.getLastD 0])
  else if count_values == [4, 1] then
    (8, [rankWithCount ranks 4, rankWithCount ranks 1])
  else if count_values == [3, 2] then
    (7, [rankWithCount ranks 3, rankWithCount ranks 2])
  else if isFlush hand then
    (6, sortDesc ranks)
  else if is_straight then
    (5, [ranks.getLastD 0])
  else if count_values == [3, 1, 1] then
    (4, rankWithCount ranks 3 :: ranksWithCountDesc ranks 1)
  else if count_values == [2, 2, 1] then
    (3, ranksWithCountDesc ranks 2 ++ [rankWithCount ranks 1])
  else if count_values == [2, 1, 1, 1] then
    (2, rankWithCount ranks 2 :: ranksWithCountDesc ranks 1)
  else
    (1, sortDesc ranks)

/-- Rust's derived lexicographic `Ord` on `Vec<u8>`:
shorter prefix compares less. -/
def listLtB : List Nat → List Nat → Bool
  | [], [] => false
  | [], _ :: _ => true
  | _ :: _, [] => false
  | a :: as, b :: bs => if a < b then true else if a == b then listLtB as bs else false

/-- Rust's derived lexicographic `Ord` on the tuple `(u8, Vec<u8>)` returned
by `evaluate_hand`: category first, then tiebreakers. -/
def evalLtB : Nat × List Nat → Nat × List Nat → Bool
  | (c1, t1), (c2, t2) => if c1 < c2 then true else if c1 == c2 then listLtB t1 t2 else false

/-- Non-strict version of `evalLtB`. -/
def evalLeB (a b : Nat × List Nat) : Bool :=
  evalLtB a b || a == b

theorem listLtB_irrefl (l : List Nat) : listLtB l l = false := by
  induction l with
  | nil => rfl
  | cons a as ih => simp [listLtB, ih]

theorem listLtB_trans {a b c : List Nat} (hab : listLtB a b = true)
    (hbc : listLtB b c = true) : listLtB a c = true := by
  induction a generalizing b c with
  | nil =>
    cases b with
    | nil => simp [listLtB] at hab
    | cons y ys =>
      cases c with
      | nil => simp [listLtB] at hbc
      | cons z zs => simp [listLtB]
  | cons x xs ih =>
    cases b with
    | nil => simp [listLtB] at hab
    | cons y ys =>
      cases c with
      | nil => simp [listLtB] at hbc
      | cons z zs =>
        simp only [listLtB] at hab hbc ⊢
        split at hab
        · rename_i hxy
          split at hbc
          · rename_i hyz
            simp [show x < z from lt_trans hxy hyz]
          · split at hbc
            · rename_i hyz
              simp_all only [beq_iff_eq]
              subst hyz
              simp [hxy]
            · exact absurd hbc (by simp)
        · split at hab
          · rename_i hxy' hxy
            simp only [beq_iff_eq] at hxy
            subst hxy
            split at hbc
            · rename_i hyz
              simp [hyz]
            · split at hbc
              · rename_i hyz
                simp only [beq_iff_eq] at hyz
                subst hyz
                simp only [if_neg hxy', beq_self_eq_true, if_true]
                exact ih hab hbc
              · exact absurd hbc (by simp)
          · exact absurd hab (by simp)

theorem listLtB_total (a b : List Nat) :
    listLtB a b = true ∨ a = b ∨ listLtB b a = true := by
  induction a generalizing b with
  | nil =>
    cases b with
    | nil => right; left; rfl
    | cons y ys => left; simp [listLtB]
  | cons x xs ih =>
    cases b with
    | nil => right; right; simp [listLtB]
    | cons y ys =>
      rcases lt_trichotomy x y with h | h | h
      · left; simp [listLtB, h]
      · subst h
        rcases ih ys with h' | h' | h'
        · left; simp [listLtB, h']
        · right; left; rw [h']
        · right; right; simp [listLtB, h']
      · right; right; simp [listLtB, h]

theorem listLtB_asymm {a b : List Nat} (h : listLtB a b = true) :
    listLtB b a = false := by
  by_contra hc
  have hba : listLtB b a = true := by
    cases hh : listLtB b a
    · exact absurd hh hc
    · rfl
  have := listLtB_trans h hba
  rw [listLtB_irrefl] at this
  exact absurd this (by simp)

theorem evalLtB_irrefl (a : Nat × List Nat) : evalLtB a a = false := by
  obtain ⟨c, t⟩ := a
  simp [evalLtB, listLtB_irrefl]

theorem evalLtB_trans {a b c : Nat × List Nat} (hab : evalLtB a b = true)
    (hbc : evalLtB b c = true) : evalLtB a c = true := by
  obtain ⟨c1, t1⟩ := a
  obtain ⟨c2, t2⟩ := b
  obtain ⟨c3, t3⟩ := c
  simp only [evalLtB] at hab hbc ⊢
  split at hab
  · rename_i h12
    split at hbc
    · rename_i h23
      simp [lt_trans h12 h23]
    · split at hbc
      · rename_i h23
        simp only [beq_iff_eq] at h23
        subst h23
        simp [h12]
      · exact absurd hbc (by simp)
  · split at hab
    · rename_i h12' h12
      simp only [beq_iff_eq] at h12
      subst h12
      split at hbc
      · rename_i h23
        simp [h23]
      · split at hbc
        · rename_i h23
          simp only [beq_iff_eq] at h23
          subst h23
          simp only [if_neg h12', beq_self_eq_true, if_true]
          exact listLtB_trans hab hbc
        · exact absurd hbc (by simp)
    · exact absurd hab (by simp)

theorem evalLtB_total (a b : Nat × List Nat) :
    evalLtB a b = true ∨ a = b ∨ evalLtB b a = true := by
  obtain ⟨c1, t1⟩ := a
  obtain ⟨c2, t2⟩ := b
  rcases lt_trichotomy c1 c2 with h | h | h
  · left; simp [evalLtB, h]
  · subst h
    rcases listLtB_total t1 t2 with h' | h' | h'
    · left; simp [evalLtB, h']
    · right; left; rw [h']
    · right; right; simp [evalLtB, h']
  · right; right; simp [evalLtB, h]

theorem evalLtB_asymm {a b : Nat × List Nat} (h : evalLtB a b = true) :
    evalLtB b a = false := by
  by_contra hc
  have hba : evalLtB b a = true := by
    cases hh : evalLtB b a
    · exact absurd hh hc
    · rfl
  have := evalLtB_trans h hba
  rw [evalLtB_irrefl] at this
  exact absurd this (by simp)

theorem evalLeB_of_not_lt {a b : Nat × List Nat} (h : evalLtB b a = false) :
    evalLeB a b = true := by
  rcases evalLtB_total a b with h' | h' | h'
  · simp [evalLeB, h']
  · subst h'; simp [evalLeB]
  · rw [h'] at h; exact absurd h (by simp)

/-- Each branch of `evaluate_hand` returns a category between 1 and 10. -/
theorem evaluate_hand_fst_bounds (hand : List Card) :
    1 ≤ (evaluate_hand hand).1 ∧ (evaluate_hand hand).1 ≤ 10 := by
  unfold evaluate_hand
  dsimp only
  split
  · split <;> simp
  · split
    · simp
    · split
      · simp
      · split
        · simp
        · split
          · simp
          · split
            · simp
            · split
              · simp
              · split
                · simp
                · simp

/-- `best_hand_from_seven` from `texas_holdem.rs`: starts from `(0, vec![])`
and keeps the strictly larger evaluation over all `combinations(5)` of the
cards.  `List.sublistsLen 5` enumerates the same 5-card subsets as
itertools' `combinations(5)` (enumeration order does not affect the fold's
value, since only strictly larger evaluations replace the accumulator). -/
def best_hand_from_seven (cards : List Card) : Nat × List Nat :=
  (cards.sublistsLen 5).foldl
    (fun best c => let eval := evaluate_hand c; if evalLtB best eval then eval else best)
    (0, [])

theorem bestFold_ge_acc (l : List (List Card)) (acc : Nat × List Nat) :
    evalLtB
      (l.foldl (fun best c => let e := evaluate_hand c; if evalLtB best e then e else best) acc)
      acc = false := by
  induction l generalizing acc with
  | nil => simp [evalLtB_irrefl]
  | cons x xs ih =>
    simp only [List.foldl_cons]
    by_cases h : evalLtB acc (evaluate_hand x) = true
    · simp only [h, if_true]
      have hx := ih (evaluate_hand x)
      cases hr : evalLtB (xs.foldl _ (evaluate_hand x)) acc
      · rfl
      · exfalso
        have hra : evalLtB (xs.foldl (fun best c =>
            let e := evaluate_hand c; if evalLtB best e then e else best) (evaluate_hand x))
            acc = true := hr
        have := evalLtB_trans hra h
        rw [hx] at this
        exact absurd this (by simp)
    · simp only [Bool.not_eq_true] at h
      simp only [h, if_false]
      exact ih acc

theorem evalLtB_ge_trans {x y z : Nat × List Nat} (hxy : evalLtB x y = false)
    (hyz : evalLtB y z = false) : evalLtB x z = false := by
  by_contra hc
  have hxz : evalLtB x z = true := by
    cases hh : evalLtB x z
    · exact absurd hh hc
    · rfl
  rcases evalLtB_total z y with h | h | h
  · have := evalLtB_trans hxz h
    rw [hxy] at this
    exact absurd this (by simp)
  · rw [h] at hxz
    rw [hxy] at hxz
    exact absurd hxz (by simp)
  · rw [hyz] at h
    exact absurd h (by simp)

theorem bestFold_ge_mem (l : List (List Card)) (acc : Nat × List Nat)
    (c : List Card) (hc : c ∈ l) :
    evalLtB
      (l.foldl (fun best c => let e := evaluate_hand c; if evalLtB best e then e else best) acc)
      (evaluate_hand c) = false := by
  induction l generalizing acc with
  | nil => cases hc
  | cons x xs ih =>
    simp only [List.foldl_cons]
    rcases List.mem_cons.mp hc with rfl | hmem
    · refine evalLtB_ge_trans (bestFold_ge_acc xs _) ?_
      show evalLtB (if evalLtB acc (evaluate_hand c) then evaluate_hand c else acc)
        (evaluate_hand c) = false
      by_cases h : evalLtB acc (evaluate_hand c) = true
      · simp [h, evalLtB_irrefl]
      · simp only [Bool.not_eq_true] at h
        simp [h]
    · exact ih _ hmem

theorem bestFold_attained (l : List (List Card)) (acc : Nat × List Nat) :
    (l.foldl (fun best c => let e := evaluate_hand c; if evalLtB best e then e else best) acc)
      = acc ∨
    ∃ c ∈ l, (l.foldl (fun best c =>
      let e := evaluate_hand c; if evalLtB best e then e else best) acc) = evaluate_hand c := by
  induction l generalizing acc with
  | nil => left; rfl
  | cons x xs ih =>
    simp only [List.foldl_cons]
    by_cases h : evalLtB acc (evaluate_hand x) = true
    · simp only [h, if_true]
      rcases ih (evaluate_hand x) with heq | ⟨c, hc, heq⟩
      · right; exact ⟨x, List.mem_cons_self x xs, heq⟩
      · right; exact ⟨c, List.mem_cons_of_mem x hc, heq⟩
    · simp only [Bool.not_eq_true] at h
      simp only [h, if_false]
      rcases ih acc with heq | ⟨c, hc, heq⟩
      · left; exact heq
      · right; exact ⟨c, List.mem_cons_of_mem x hc, heq⟩

theorem evaluate_hand_fst_pos (hand : List Card) :
    evalLtB (0, []) (evaluate_hand hand) = true := by
  have h1 := (evaluate_hand_fst_bounds hand).1
  rcases hE : evaluate_hand hand with ⟨c, t⟩
  rw [hE] at h1
  simp only at h1
  simp [evalLtB, Nat.lt_of_lt_of_le Nat.zero_lt_one h1]

/-- C1 (code bug): the claim says the wheel {A,2,3,4,5} evaluates as a
straight (category 5, or 9 when one suit) whose recorded high-card tiebreaker
is 5, comparing strictly below a 6-high straight.  `evaluate_hand` does
classify the wheel as category 5 (resp. 9), but its tiebreaker is
`*ranks.last().unwrap()` on the ascending sorted ranks `[2,3,4,5,14]`, which
is 14, so the wheel compares strictly ABOVE a 6-high straight — contradicting
the claim and the repository's own comment on `HandRank::Straight` in
`deck.rs` ("5 in [5,4,3,2,Ace-low] would be '5'"). -/
theorem wheel_straight_recorded_high_card_is_ace :
    evaluate_hand [⟨2, .Spades⟩, ⟨3, .Spades⟩, ⟨4, .Spades⟩, ⟨5, .Spades⟩, ⟨14, .Hearts⟩]
      = (5, [14]) ∧
    evaluate_hand [⟨2, .Spades⟩, ⟨3, .Spades⟩, ⟨4, .Spades⟩, ⟨5, .Spades⟩, ⟨14, .Spades⟩]
      = (9, [14]) ∧
    evalLtB
      (evaluate_hand [⟨2, .Spades⟩, ⟨3, .Hearts⟩, ⟨4, .Spades⟩, ⟨5, .Spades⟩, ⟨6, .Hearts⟩])
      (evaluate_hand [⟨2, .Spades⟩, ⟨3, .Spades⟩, ⟨4, .Spades⟩, ⟨5, .Spades⟩, ⟨14, .Hearts⟩])
      = true ∧
    evalLtB
      (evaluate_hand [⟨2, .Spades⟩, ⟨3, .Spades⟩, ⟨4, .Spades⟩, ⟨5, .Spades⟩, ⟨14, .Hearts⟩])
      (evaluate_hand [⟨2, .Spades⟩, ⟨3, .Hearts⟩, ⟨4, .Spades⟩, ⟨5, .Spades⟩, ⟨6, .Hearts⟩])
      = false := by
  decide

/-- C9: for every well-formed 5-card hand, `evaluate_hand` returns a category
in [1,10]; and for any two hands whose categories differ, the hand with the
higher category compares strictly greater under the lexicographic
`(category, tiebreakers)` ordering, regardless of either tiebreaker list. -/
theorem evaluate_hand_category_bounds_and_dominance (h1 h2 : List Card)
    (hl1 : h1.length = 5) (hl2 : h2.length = 5) :
    (1 ≤ (evaluate_hand h1).1 ∧ (evaluate_hand h1).1 ≤ 10) ∧
    ((evaluate_hand h2).1 < (evaluate_hand h1).1 →
      evalLtB (evaluate_hand h2) (evaluate_hand h1) = true) := by
  refine ⟨evaluate_hand_fst_bounds h1, ?_⟩
  intro hlt
  rcases hE1 : evaluate_hand h1 with ⟨c1, t1⟩
  rcases hE2 : evaluate_hand h2 with ⟨c2, t2⟩
  rw [hE1, hE2] at hlt
  simp only at hlt
  simp [evalLtB, hlt]

/-- Witness for C9 at a four-of-a-kind versus a one-pair hand. -/
theorem evaluate_hand_category_bounds_and_dominance_witness :
    (1 ≤ (evaluate_hand [⟨7, .Spades⟩, ⟨7, .Hearts⟩, ⟨7, .Clubs⟩, ⟨7, .Diamonds⟩, ⟨3, .Hearts⟩]).1 ∧
      (evaluate_hand [⟨7, .Spades⟩, ⟨7, .Hearts⟩, ⟨7, .Clubs⟩, ⟨7, .Diamonds⟩, ⟨3, .Hearts⟩]).1 ≤ 10) ∧
    ((evaluate_hand [⟨7, .Spades⟩, ⟨7, .Hearts⟩, ⟨9, .Clubs⟩, ⟨4, .Diamonds⟩, ⟨3, .Hearts⟩]).1 <
        (evaluate_hand [⟨7, .Spades⟩, ⟨7, .Hearts⟩, ⟨7, .Clubs⟩, ⟨7, .Diamonds⟩, ⟨3, .Hearts⟩]).1 →
      evalLtB (evaluate_hand [⟨7, .Spades⟩, ⟨7, .Hearts⟩, ⟨9, .Clubs⟩, ⟨4, .Diamonds⟩, ⟨3, .Hearts⟩])
        (evaluate_hand [⟨7, .Spades⟩, ⟨7, .Hearts⟩, ⟨7, .Clubs⟩, ⟨7, .Diamonds⟩, ⟨3, .Hearts⟩]) = true) :=
  evaluate_hand_category_bounds_and_dominance
    [⟨7, .Spades⟩, ⟨7, .Hearts⟩, ⟨7, .Clubs⟩, ⟨7, .Diamonds⟩, ⟨3, .Hearts⟩]
    [⟨7, .Spades⟩, ⟨7, .Hearts⟩, ⟨9, .Clubs⟩, ⟨4, .Diamonds⟩, ⟨3, .Hearts⟩]
    (by decide) (by decide)

/-- C2: over any 7 cards, `best_hand_from_seven` evaluates all C(7,5) = 21
five-card subsets and returns a value that is ≥ the evaluation of every
subset and is attained by one of them (hence equals the maximum). -/
theorem best_hand_from_seven_is_max (cards : List Card) (h7 : cards.length = 7) :
    (cards.sublistsLen 5).length = 21 ∧
    (∀ s ∈ cards.sublistsLen 5,
      evalLeB (evaluate_hand s) (best_hand_from_seven cards) = true) ∧
    (∃ s ∈ cards.sublistsLen 5, best_hand_from_seven cards = evaluate_hand s) := by
  have hlen : (cards.sublistsLen 5).length = 21 := by
    rw [List.length_sublistsLen, h7]
    rfl
  refine ⟨hlen, ?_, ?_⟩
  · intro s hs
    exact evalLeB_of_not_lt (bestFold_ge_mem _ _ _ hs)
  · rcases bestFold_attained (cards.sublistsLen 5) (0, []) with heq | ⟨c, hc, heq⟩
    · exfalso
      obtain ⟨s, ss, hcs⟩ := List.exists_cons_of_length_pos
        (show 0 < (cards.sublistsLen 5).length by rw [hlen]; norm_num)
      have hs : s ∈ cards.sublistsLen 5 := by
        rw [hcs]
        exact List.mem_cons_self s ss
      have hge := bestFold_ge_mem (cards.sublistsLen 5) (0, []) s hs
      rw [heq] at hge
      have hpos := evaluate_hand_fst_pos s
      rw [hpos] at hge
      exact absurd hge (by simp)
    · exact ⟨c, hc, heq⟩

/-- Witness for C2 at a concrete 7-card board. -/
theorem best_hand_from_seven_is_max_witness :
    (([⟨2, .Hearts⟩, ⟨3, .Diamonds⟩, ⟨4, .Clubs⟩, ⟨5, .Hearts⟩, ⟨7, .Spades⟩,
        ⟨13, .Hearts⟩, ⟨12, .Diamonds⟩] : List Card).sublistsLen 5).length = 21 ∧
    (∀ s ∈ ([⟨2, .Hearts⟩, ⟨3, .Diamonds⟩, ⟨4, .Clubs⟩, ⟨5, .Hearts⟩, ⟨7, .Spades⟩,
        ⟨13, .Hearts⟩, ⟨12, .Diamonds⟩] : List Card).sublistsLen 5,
      evalLeB (evaluate_hand s) (best_hand_from_seven
        [⟨2, .Hearts⟩, ⟨3, .Diamonds⟩, ⟨4, .Clubs⟩, ⟨5, .Hearts⟩, ⟨7, .Spades⟩,
          ⟨13, .Hearts⟩, ⟨12, .Diamonds⟩]) = true) ∧
    (∃ s ∈ ([⟨2, .Hearts⟩, ⟨3, .Diamonds⟩, ⟨4, .Clubs⟩, ⟨5, .Hearts⟩, ⟨7, .Spades⟩,
        ⟨13, .Hearts⟩, ⟨12, .Diamonds⟩] : List Card).sublistsLen 5,
      best_hand_from_seven [⟨2, .Hearts⟩, ⟨3, .Diamonds⟩, ⟨4, .Clubs⟩, ⟨5, .Hearts⟩,
        ⟨7, .Spades⟩, ⟨13, .Hearts⟩, ⟨12, .Diamonds⟩] = evaluate_hand s) :=
  best_hand_from_seven_is_max
    [⟨2, .Hearts⟩, ⟨3, .Diamonds⟩, ⟨4, .Clubs⟩, ⟨5, .Hearts⟩, ⟨7, .Spades⟩,
      ⟨13, .Hearts⟩, ⟨12, .Diamonds⟩] (by decide)

/-- `struct Player` from `five_card_draw.rs`, shared by all three variants. -/
structure Player where
  id : String
  hand : List Card
  folded : Bool
  money_won : Int
  money_lost : Int
  bet_amount : Int
deriving DecidableEq, Repr

/-- The key `(third_card.rank, third_card.suit as u8)` compared by
`determine_bring_in`, under the derived lexicographic `Ord` on tuples. -/
def pairLtB (a b : Nat × Nat) : Bool :=
  if a.1 < b.1 then true else if a.1 == b.1 then decide (a.2 < b.2) else false

theorem pairLtB_irrefl (a : Nat × Nat) : pairLtB a a = false := by
  simp [pairLtB]

theorem pairLtB_trans {a b c : Nat × Nat} (hab : pairLtB a b = true)
    (hbc : pairLtB b c = true) : pairLtB a c = true := by
  obtain ⟨a1, a2⟩ := a
  obtain ⟨b1, b2⟩ := b
  obtain ⟨c1, c2⟩ := c
  simp only [pairLtB] at hab hbc ⊢
  split at hab
  · rename_i h12
    split at hbc
    · rename_i h23
      simp [lt_trans h12 h23]
    · split at hbc
      · rename_i h23
        simp only [beq_iff_eq] at h23
        subst h23
        simp [h12]
      · exact absurd hbc (by simp)
  · split at hab
    · rename_i h12' h12
      simp only [beq_iff_eq] at h12
      subst h12
      split at hbc
      · rename_i h23
        simp [h23]
      · split at hbc
        · rename_i h23
          simp only [beq_iff_eq] at h23
          subst h23
          simp only [if_neg h12', beq_self_eq_true, if_true]
          simp only [decide_eq_true_eq] at hab hbc ⊢
          exact lt_trans hab hbc
        · exact absurd hbc (by simp)
    · exact absurd hab (by simp)

theorem pairLtB_total (a b : Nat × Nat) :
    pairLtB a b = true ∨ a = b ∨ pairLtB b a = true := by
  obtain ⟨a1, a2⟩ := a
  obtain ⟨b1, b2⟩ := b
  rcases lt_trichotomy a1 b1 with h | h | h
  · left; simp [pairLtB, h]
  · subst h
    rcases lt_trichotomy a2 b2 with h' | h' | h'
    · left; simp [pairLtB, h']
    · subst h'; right; left; rfl
    · right; right; simp [pairLtB, h']
  · right; right; simp [pairLtB, h]

section PickBy

variable {α κ : Type}

/-- One step of the running-best folds used by `max_by_key` / `min_by_key` /
the showdown loops: `repl m x = true` means the running best `m` is replaced
by the new element `x`. -/
def pickStep (repl : κ → κ → Bool) (key : α → κ) (acc : Option α) (x : α) : Option α :=
  match acc with
  | none => some x
  | some m => if repl (key m) (key x) then some x else some m

/-- Running-best fold over a list, starting from `None`, as all the
`max_by_key` / `min_by_key` / showdown loops in the sources do. -/
def pickBy (repl : κ → κ → Bool) (key : α → κ) (l : List α) : Option α :=
  l.foldl (pickStep repl key) none

theorem pickStep_some (repl : κ → κ → Bool) (key : α → κ) (m x : α) :
    pickStep repl key (some m) x = if repl (key m) (key x) then some x else some m := rfl

/-- Strict replacement (`repl m x = lt m x`, the shape of the stud/texas
showdown loops) selects the FIRST maximal element: every element strictly
before the result in the list is strictly below it under `lt`-on-keys. -/
theorem pickFirst_go (lt : κ → κ → Bool)
    (htrans : ∀ a b c, lt a b = true → lt b c = true → lt a c = true)
    (htot : ∀ a b, lt a b = true ∨ a = b ∨ lt b a = true)
    (hirr : ∀ a, lt a a = false)
    (key : α → κ) (l : List α) (m : α) :
    ∃ l1 p l2, m :: l = l1 ++ p :: l2 ∧
      (l.foldl (pickStep lt key) (some m)) = some p ∧
      (∀ q ∈ m :: l, lt (key p) (key q) = false) ∧
      (∀ q ∈ l1, lt (key q) (key p) = true) := by
  induction l generalizing m with
  | nil =>
    refine ⟨[], m, [], rfl, rfl, ?_, by simp⟩
    intro q hq
    rcases List.mem_singleton.mp hq with rfl
    exact hirr _
  | cons x xs ih =>
    simp only [List.foldl_cons, pickStep_some]
    by_cases h : lt (key m) (key x) = true
    · rw [if_pos h]
      obtain ⟨l1, p, l2, hdec, hres, hmax, hstrict⟩ := ih x
      refine ⟨m :: l1, p, l2, by rw [List.cons_append, ← hdec], hres, ?_, ?_⟩
      · intro q hq
        rcases List.mem_cons.mp hq with rfl | hq'
        · by_contra hc
          have hpm : lt (key p) (key q) = true := by
            cases hh : lt (key p) (key q)
            · exact absurd hh hc
            · rfl
          have hpx := htrans _ _ _ hpm h
          rw [hmax x (List.mem_cons_self x xs)] at hpx
          exact absurd hpx (by simp)
        · exact hmax q hq'
      · intro q hq
        rcases List.mem_cons.mp hq with rfl | hq'
        · rcases htot (key p) (key x) with hpx | hpx | hpx
          · rw [hmax x (List.mem_cons_self x xs)] at hpx
            exact absurd hpx (by simp)
          · rw [← hpx] at h
            exact h
          · exact htrans _ _ _ h hpx
        · exact hstrict q hq'
    · have h' : lt (key m) (key x) = false := by
        cases hh : lt (key m) (key x)
        · rfl
        · exact absurd hh h
      rw [if_neg h]
      obtain ⟨l1, p, l2, hdec, hres, hmax, hstrict⟩ := ih m
      cases l1 with
      | nil =>
        simp only [List.nil_append] at hdec
        obtain ⟨rfl, rfl⟩ : m = p ∧ xs = l2 := by
          injection hdec with h1 h2
          exact ⟨h1, h2⟩
        refine ⟨[], m, x :: xs, rfl, hres, ?_, by simp⟩
        intro q hq
        rcases List.mem_cons.mp hq with rfl | hq'
        · exact hirr _
        · rcases List.mem_cons.mp hq' with rfl | hq''
          · exact h'
          · exact hmax q (List.mem_cons_of_mem _ hq'')
      | cons a l1' =>
        simp only [List.cons_append] at hdec
        obtain ⟨rfl, hxs⟩ : a = m ∧ xs = l1' ++ p :: l2 := by
          injection hdec with h1 h2
          exact ⟨h1.symm, h2⟩
        have hmP : lt (key a) (key p) = true := hstrict a (List.mem_cons_self a l1')
        refine ⟨a :: x :: l1', p, l2, by rw [hxs]; simp, hres, ?_, ?_⟩
        · intro q hq
          rcases List.mem_cons.mp hq with rfl | hq'
          · exact hmax q (List.mem_cons_self _ _)
          · rcases List.mem_cons.mp hq' with rfl | hq''
            · by_contra hc
              have hpx : lt (key p) (key q) = true := by
                cases hh : lt (key p) (key q)
                · exact absurd hh hc
                · rfl
              have hax := htrans _ _ _ hmP hpx
              rw [h'] at hax
              exact absurd hax (by simp)
            · exact hmax q (List.mem_cons_of_mem _ hq'')
        · intro q hq
          rcases List.mem_cons.mp hq with rfl | hq'
          · exact hmP
          · rcases List.mem_cons.mp hq' with rfl | hq''
            · rcases htot (key a) (key q) with haq | haq | haq
              · rw [h'] at haq
                exact absurd haq (by simp)
              · rw [← haq]
                exact hmP
              · exact htrans _ _ _ haq hmP
            · exact hstrict q (List.mem_cons_of_mem _ hq'')

/-- Replace-on-`≥` (`repl m x = !(lt x m)`, the shape of Rust's
`max_by_key`) selects the LAST maximal element: every element strictly after
the result in the list is strictly below it under `lt`-on-keys. -/
theorem pickLast_go (lt : κ → κ → Bool)
    (htrans : ∀ a b c, lt a b = true → lt b c = true → lt a c = true)
    (htot : ∀ a b, lt a b = true ∨ a = b ∨ lt b a = true)
    (hirr : ∀ a, lt a a = false)
    (key : α → κ) (l : List α) (m : α) :
    ∃ l1 p l2, m :: l = l1 ++ p :: l2 ∧
      (l.foldl (pickStep (fun a b => !lt b a) key) (some m)) = some p ∧
      (∀ q ∈ m :: l, lt (key p) (key q) = false) ∧
      (∀ q ∈ l2, lt (key q) (key p) = true) := by
  induction l generalizing m with
  | nil =>
    refine ⟨[], m, [], rfl, rfl, ?_, by simp⟩
    intro q hq
    rcases List.mem_singleton.mp hq with rfl
    exact hirr _
  | cons x xs ih =>
    simp only [List.foldl_cons, pickStep_some]
    by_cases h : lt (key x) (key m) = true
    · rw [if_neg (by simp [h])]
      obtain ⟨l1, p, l2, hdec, hres, hmax, hstrict⟩ := ih m
      cases l1 with
      | nil =>
        simp only [List.nil_append] at hdec
        obtain ⟨rfl, rfl⟩ : m = p ∧ xs = l2 := by
          injection hdec with h1 h2
          exact ⟨h1, h2⟩
        refine ⟨[], m, x :: xs, rfl, hres, ?_, ?_⟩
        · intro q hq
          rcases List.mem_cons.mp hq with rfl | hq'
          · exact hirr _
          · rcases List.mem_cons.mp hq' with rfl | hq''
            · by_contra hc
              have hmq : lt (key m) (key q) = true := by
                cases hh : lt (key m) (key q)
                · exact absurd hh hc
                · rfl
              have hxx := htrans _ _ _ h hmq
              rw [hirr] at hxx
              exact absurd hxx (by simp)
            · exact hmax q (List.mem_cons_of_mem _ hq'')
        · intro q hq
          rcases List.mem_cons.mp hq with rfl | hq'
          · exact h
          · exact hstrict q hq'
      | cons a l1' =>
        simp only [List.cons_append] at hdec
        obtain ⟨rfl, hxs⟩ : a = m ∧ xs = l1' ++ p :: l2 := by
          injection hdec with h1 h2
          exact ⟨h1.symm, h2⟩
        refine ⟨a :: x :: l1', p, l2, by rw [hxs]; simp, hres, ?_, ?_⟩
        · intro q hq
          rcases List.mem_cons.mp hq with rfl | hq'
          · exact hmax q (List.mem_cons_self _ _)
          · rcases List.mem_cons.mp hq' with rfl | hq''
            · by_contra hc
              have hpq : lt (key p) (key q) = true := by
                cases hh : lt (key p) (key q)
                · exact absurd hh hc
                · rfl
              have hpm : lt (key p) (key a) = true := htrans _ _ _ hpq h
              rw [hmax a (List.mem_cons_self _ _)] at hpm
              exact absurd hpm (by simp)
            · exact hmax q (List.mem_cons_of_mem _ hq'')
        · exact hstrict
    · have h' : lt (key x) (key m) = false := by
        cases hh : lt (key x) (key m)
        · rfl
        · exact absurd hh h
      rw [if_pos (by simp [h'])]
      obtain ⟨l1, p, l2, hdec, hres, hmax, hstrict⟩ := ih x
      refine ⟨m :: l1, p, l2, by rw [List.cons_append, ← hdec], hres, ?_, ?_⟩
      · intro q hq
        rcases List.mem_cons.mp hq with rfl | hq'
        · by_contra hc
          have hpq : lt (key p) (key q) = true := by
            cases hh : lt (key p) (key q)
            · exact absurd hh hc
            · rfl
          rcases htot (key x) (key p) with hxp | hxp | hxp
          · have hxq := htrans _ _ _ hxp hpq
            rw [h'] at hxq
            exact absurd hxq (by simp)
          · rw [← hxp] at hpq
            rw [h'] at hpq
            exact absurd hpq (by simp)
          · rw [hmax x (List.mem_cons_self x xs)] at hxp
            exact absurd hxp (by simp)
        · exact hmax q hq'
      · exact hstrict

end PickBy

/-- `struct PokerGame` of `five_card_draw.rs`.  The deck is threaded
separately in this development, since `Deck::new()` shuffles with external
randomness; none of the functions modelled here read it. -/
structure PokerGame where
  players : List Player
  pot : Int
  current_bet : Int
  current_players : List Player
deriving Repr

/-- `determine_winner_id` from `five_card_draw.rs`:
`.iter().filter(|p| !p.folded).max_by_key(|p| evaluate_hand(&p.hand))`.
Rust's `max_by_key` returns the LAST of several equally-maximum elements,
i.e. it replaces the running best whenever the new key is not strictly
smaller. -/
def determine_winner_id (g : PokerGame) : Option String :=
  (pickBy (fun a b => !evalLtB b a) (fun p => evaluate_hand p.hand)
    (g.current_players.filter (fun p => !p.folded))).map Player.id

/-- `struct SevenCardStudGame` of `seven_card_stud.rs` (deck threaded
separately, as for `PokerGame`). -/
structure SevenCardStudGame where
  players : List Player
  pot : Int
  current_players : List Player
  current_bet : Int
deriving Repr

/-- The key `(third_card.rank, third_card.suit as u8)` of
`determine_bring_in`; its `(0, 0)` default is unreachable because the
caller's filter guarantees `hand.len() >= 3`. -/
def thirdCardKey (p : Player) : Nat × Nat :=
  match p.hand.get? 2 with
  | some c => (c.rank, c.suit.toNat)
  | none => (0, 0)

/-- `determine_bring_in` from `seven_card_stud.rs`: `min_by_key` over
non-folded players holding at least 3 cards, on the rank-then-suit key of
the third (face-up) card.  Rust's `min_by_key` returns the FIRST of several
equal minima, i.e. it replaces the running best only on a strictly smaller
key. -/
def determine_bring_in (g : SevenCardStudGame) : Option String :=
  (pickBy (fun a b => pairLtB b a) thirdCardKey
    (g.current_players.filter
      (fun p => !p.folded && decide (3 ≤ p.hand.length)))).map Player.id

/-- `showdown` from `seven_card_stud.rs`: scans non-folded players (the
`continue` on `player.folded` is the filter) and replaces the running best
only when `eval > *best`, so the FIRST best player is kept. -/
def stud_showdown (g : SevenCardStudGame) : Option String :=
  (pickBy evalLtB (fun p => best_hand_from_seven p.hand)
    (g.current_players.filter (fun p => !p.folded))).map Player.id

/-- `struct TexasHoldemGame` of `texas_holdem.rs` (deck threaded
separately). -/
structure TexasHoldemGame where
  players : List Player
  pot : Int
  current_bet : Int
  current_players : List Player
  community_cards : List Card
deriving Repr

/-- `showdown` from `texas_holdem.rs`: like the stud showdown but the
evaluation key is `best_hand_from_seven` of hole cards extended with the
community cards. -/
def texas_showdown (g : TexasHoldemGame) : Option String :=
  (pickBy evalLtB (fun p => best_hand_from_seven (p.hand ++ g.community_cards))
    (g.current_players.filter (fun p => !p.folded))).map Player.id

theorem pickStep_none {α κ : Type} (repl : κ → κ → Bool) (key : α → κ) (x : α) :
    pickStep repl key none x = some x := rfl

theorem determine_bring_in_spec (g : SevenCardStudGame)
    (hne : g.current_players.filter
      (fun p => !p.folded && decide (3 ≤ p.hand.length)) ≠ []) :
    ∃ l1 p l2,
      g.current_players.filter (fun p => !p.folded && decide (3 ≤ p.hand.length))
        = l1 ++ p :: l2 ∧
      determine_bring_in g = some p.id ∧
      (∀ q ∈ l1 ++ p :: l2, pairLtB (thirdCardKey q) (thirdCardKey p) = false) ∧
      (∀ q ∈ l1, pairLtB (thirdCardKey p) (thirdCardKey q) = true) := by
  cases hl : g.current_players.filter (fun p => !p.folded && decide (3 ≤ p.hand.length)) with
  | nil => exact absurd hl hne
  | cons m rest =>
    obtain ⟨l1, p, l2, hdec, hres, hmax, hstrict⟩ :=
      pickFirst_go (fun a b => pairLtB b a)
        (fun a b c hab hbc => pairLtB_trans hbc hab)
        (fun a b => by
          rcases pairLtB_total b a with h | h | h
          · exact Or.inl h
          · exact Or.inr (Or.inl h.symm)
          · exact Or.inr (Or.inr h))
        (fun a => pairLtB_irrefl a)
        thirdCardKey rest m
    refine ⟨l1, p, l2, hdec, ?_, ?_, ?_⟩
    · unfold determine_bring_in pickBy
      rw [hl, List.foldl_cons, pickStep_none, hres]
      rfl
    · intro q hq
      exact hmax q (by rw [hdec]; exact hq)
    · exact hstrict

theorem determine_winner_id_spec (g : PokerGame)
    (hne : g.current_players.filter (fun p => !p.folded) ≠ []) :
    ∃ l1 p l2,
      g.current_players.filter (fun p => !p.folded) = l1 ++ p :: l2 ∧
      determine_winner_id g = some p.id ∧
      (∀ q ∈ l1 ++ p :: l2,
        evalLtB (evaluate_hand p.hand) (evaluate_hand q.hand) = false) ∧
      (∀ q ∈ l2, evalLtB (evaluate_hand q.hand) (evaluate_hand p.hand) = true) := by
  cases hl : g.current_players.filter (fun p => !p.folded) with
  | nil => exact absurd hl hne
  | cons m rest =>
    obtain ⟨l1, p, l2, hdec, hres, hmax, hstrict⟩ :=
      pickLast_go evalLtB
        (fun a b c hab hbc => evalLtB_trans hab hbc)
        evalLtB_total evalLtB_irrefl
        (fun p => evaluate_hand p.hand) rest m
    refine ⟨l1, p, l2, hdec, ?_, ?_, ?_⟩
    · unfold determine_winner_id pickBy
      rw [hl, List.foldl_cons, pickStep_none, hres]
      rfl
    · intro q hq
      exact hmax q (by rw [hdec]; exact hq)
    · exact hstrict

theorem stud_showdown_spec (g : SevenCardStudGame)
    (hne : g.current_players.filter (fun p => !p.folded) ≠ []) :
    ∃ l1 p l2,
      g.current_players.filter (fun p => !p.folded) = l1 ++ p :: l2 ∧
      stud_showdown g = some p.id ∧
      (∀ q ∈ l1 ++ p :: l2,
        evalLtB (best_hand_from_seven p.hand) (best_hand_from_seven q.hand) = false) ∧
      (∀ q ∈ l1,
        evalLtB (best_hand_from_seven q.hand) (best_hand_from_seven p.hand) = true) := by
  cases hl : g.current_players.filter (fun p => !p.folded) with
  | nil => exact absurd hl hne
  | cons m rest =>
    obtain ⟨l1, p, l2, hdec, hres, hmax, hstrict⟩ :=
      pickFirst_go evalLtB
        (fun a b c hab hbc => evalLtB_trans hab hbc)
        evalLtB_total evalLtB_irrefl
        (fun p => best_hand_from_seven p.hand) rest m
    refine ⟨l1, p, l2, hdec, ?_, ?_, ?_⟩
    · unfold stud_showdown pickBy
      rw [hl, List.foldl_cons, pickStep_none, hres]
      rfl
    · intro q hq
      exact hmax q (by rw [hdec]; exact hq)
    · exact hstrict

theorem texas_showdown_spec (g : TexasHoldemGame)
    (hne : g.current_players.filter (fun p => !p.folded) ≠ []) :
    ∃ l1 p l2,
      g.current_players.filter (fun p => !p.folded) = l1 ++ p :: l2 ∧
      texas_showdown g = some p.id ∧
      (∀ q ∈ l1 ++ p :: l2,
        evalLtB (best_hand_from_seven (p.hand ++ g.community_cards))
          (best_hand_from_seven (q.hand ++ g.community_cards)) = false) ∧
      (∀ q ∈ l1,
        evalLtB (best_hand_from_seven (q.hand ++ g.community_cards))
          (best_hand_from_seven (p.hand ++ g.community_cards)) = true) := by
  cases hl : g.current_players.filter (fun p => !p.folded) with
  | nil => exact absurd hl hne
  | cons m rest =>
    obtain ⟨l1, p, l2, hdec, hres, hmax, hstrict⟩ :=
      pickFirst_go evalLtB
        (fun a b c hab hbc => evalLtB_trans hab hbc)
        evalLtB_total evalLtB_irrefl
        (fun p => best_hand_from_seven (p.hand ++ g.community_cards)) rest m
    refine ⟨l1, p, l2, hdec, ?_, ?_, ?_⟩
    · unfold texas_showdown pickBy
      rw [hl, List.foldl_cons, pickStep_none, hres]
      rfl
    · intro q hq
      exact hmax q (by rw [hdec]; exact hq)
    · exact hstrict

/-- Third street of the spec's bring-in example: alice shows 3♠, bob shows
9♦, carl shows K♣ (first two cards of each hand are the hidden ones). -/
def studBringInExample : SevenCardStudGame :=
  { players := [], pot := 0, current_bet := 0,
    current_players :=
      [ ⟨"alice", [⟨10, .Hearts⟩, ⟨4, .Clubs⟩, ⟨3, .Spades⟩], false, 0, 0, 0⟩,
        ⟨"bob", [⟨2, .Hearts⟩, ⟨5, .Clubs⟩, ⟨9, .Diamonds⟩], false, 0, 0, 0⟩,
        ⟨"carl", [⟨6, .Hearts⟩, ⟨7, .Clubs⟩, ⟨13, .Clubs⟩], false, 0, 0, 0⟩ ] }

/-- C8: after third street, with every active player holding at least 3
cards, `determine_bring_in` returns the first active player whose exposed
third card is minimal under rank-then-suit; in particular, with exposed
cards 3♠ / 9♦ / K♣ it returns the holder of the 3♠. -/
theorem bring_in_is_lowest_exposed_card :
    (∀ g : SevenCardStudGame,
      g.current_players.filter (fun p => !p.folded && decide (3 ≤ p.hand.length)) ≠ [] →
      ∃ l1 p l2,
        g.current_players.filter (fun p => !p.folded && decide (3 ≤ p.hand.length))
          = l1 ++ p :: l2 ∧
        determine_bring_in g = some p.id ∧
        (∀ q ∈ l1 ++ p :: l2, pairLtB (thirdCardKey q) (thirdCardKey p) = false) ∧
        (∀ q ∈ l1, pairLtB (thirdCardKey p) (thirdCardKey q) = true)) ∧
    determine_bring_in studBringInExample = some "alice" :=
  ⟨determine_bring_in_spec, rfl⟩

/-- Witness for C8: the bring-in spec instantiated at the 3♠/9♦/K♣ table. -/
theorem bring_in_is_lowest_exposed_card_witness :
    studBringInExample.current_players.filter
      (fun p => !p.folded && decide (3 ≤ p.hand.length)) ≠ [] ∧
    (∃ l1 p l2,
      studBringInExample.current_players.filter
        (fun p => !p.folded && decide (3 ≤ p.hand.length)) = l1 ++ p :: l2 ∧
      determine_bring_in studBringInExample = some p.id ∧
      (∀ q ∈ l1 ++ p :: l2, pairLtB (thirdCardKey q) (thirdCardKey p) = false) ∧
      (∀ q ∈ l1, pairLtB (thirdCardKey p) (thirdCardKey q) = true)) :=
  ⟨by decide, bring_in_is_lowest_exposed_card.1 studBringInExample (by decide)⟩

/-- Two tied high-card hands for Five Card Draw: same ranks, no flush. -/
def drawTieExample : PokerGame :=
  { players := [], pot := 0, current_bet := 0,
    current_players :=
      [ ⟨"alice", [⟨2, .Hearts⟩, ⟨3, .Hearts⟩, ⟨4, .Spades⟩, ⟨5, .Hearts⟩, ⟨7, .Hearts⟩], false, 0, 0, 0⟩,
        ⟨"bob", [⟨2, .Diamonds⟩, ⟨3, .Diamonds⟩, ⟨4, .Diamonds⟩, ⟨5, .Diamonds⟩, ⟨7, .Spades⟩], false, 0, 0, 0⟩ ] }

/-- Two tied seven-card hands for Seven Card Stud. -/
def studTieExample : SevenCardStudGame :=
  { players := [], pot := 0, current_bet := 0,
    current_players :=
      [ ⟨"alice", [⟨2, .Hearts⟩, ⟨3, .Diamonds⟩, ⟨4, .Clubs⟩, ⟨5, .Hearts⟩, ⟨7, .Spades⟩, ⟨8, .Hearts⟩, ⟨9, .Diamonds⟩], false, 0, 0, 0⟩,
        ⟨"bob", [⟨2, .Diamonds⟩, ⟨3, .Clubs⟩, ⟨4, .Hearts⟩, ⟨5, .Diamonds⟩, ⟨7, .Hearts⟩, ⟨8, .Spades⟩, ⟨9, .Clubs⟩], false, 0, 0, 0⟩ ] }

/-- Two tied hole-card pairs over the same board for Texas Hold'em. -/
def texasTieExample : TexasHoldemGame :=
  { players := [], pot := 0, current_bet := 0,
    current_players :=
      [ ⟨"alice", [⟨13, .Hearts⟩, ⟨12, .Diamonds⟩], false, 0, 0, 0⟩,
        ⟨"bob", [⟨13, .Spades⟩, ⟨12, .Clubs⟩], false, 0, 0, 0⟩ ],
    community_cards := [⟨2, .Hearts⟩, ⟨3, .Diamonds⟩, ⟨4, .Clubs⟩, ⟨5, .Hearts⟩, ⟨7, .Spades⟩] }

/-- C10: the three variants disagree on ties.  Five Card Draw's
`determine_winner_id` (`max_by_key`) returns the LAST tied-best non-folded
player (everything after the result is strictly worse), while the Seven Card
Stud and Texas Hold'em `showdown` loops (replace only on a strictly greater
evaluation) return the FIRST tied-best player (everything before the result
is strictly worse).  Each returns a single winner id, so the pot is never
split.  Concretely: with two players holding equal-best hands, Draw names the
second player while Stud and Hold'em name the first. -/
theorem showdown_tie_policies_disagree :
    (∀ g : PokerGame,
      g.current_players.filter (fun p => !p.folded) ≠ [] →
      ∃ l1 p l2,
        g.current_players.filter (fun p => !p.folded) = l1 ++ p :: l2 ∧
        determine_winner_id g = some p.id ∧
        (∀ q ∈ l1 ++ p :: l2,
          evalLtB (evaluate_hand p.hand) (evaluate_hand q.hand) = false) ∧
        (∀ q ∈ l2, evalLtB (evaluate_hand q.hand) (evaluate_hand p.hand) = true)) ∧
    (∀ g : SevenCardStudGame,
      g.current_players.filter (fun p => !p.folded) ≠ [] →
      ∃ l1 p l2,
        g.current_players.filter (fun p => !p.folded) = l1 ++ p :: l2 ∧
        stud_showdown g = some p.id ∧
        (∀ q ∈ l1 ++ p :: l2,
          evalLtB (best_hand_from_seven p.hand) (best_hand_from_seven q.hand) = false) ∧
        (∀ q ∈ l1,
          evalLtB (best_hand_from_seven q.hand) (best_hand_from_seven p.hand) = true)) ∧
    (∀ g : TexasHoldemGame,
      g.current_players.filter (fun p => !p.folded) ≠ [] →
      ∃ l1 p l2,
        g.current_players.filter (fun p => !p.folded) = l1 ++ p :: l2 ∧
        texas_showdown g = some p.id ∧
        (∀ q ∈ l1 ++ p :: l2,
          evalLtB (best_hand_from_seven (p.hand ++ g.community_cards))
            (best_hand_from_seven (q.hand ++ g.community_cards)) = false) ∧
        (∀ q ∈ l1,
          evalLtB (best_hand_from_seven (q.hand ++ g.community_cards))
            (best_hand_from_seven (p.hand ++ g.community_cards)) = true)) ∧
    ((drawTieExample.current_players.map
        (fun p => evaluate_hand p.hand) = [(1, [7, 5, 4, 3, 2]), (1, [7, 5, 4, 3, 2])]) ∧
      determine_winner_id drawTieExample = some "bob" ∧
      (studTieExample.current_players.map
        (fun p => best_hand_from_seven p.hand) = [(1, [9, 8, 7, 5, 4]), (1, [9, 8, 7, 5, 4])]) ∧
      stud_showdown studTieExample = some "alice" ∧
      (texasTieExample.current_players.map
        (fun p => best_hand_from_seven (p.hand ++ texasTieExample.community_cards))
          = [(1, [13, 12, 7, 5, 4]), (1, [13, 12, 7, 5, 4])]) ∧
      texas_showdown texasTieExample = some "alice") :=
  ⟨determine_winner_id_spec, stud_showdown_spec, texas_showdown_spec,
    rfl, rfl, rfl, rfl, rfl, rfl⟩

/-- Witness for C10: the last-max draw spec instantiated at the two-player
tied table. -/
theorem showdown_tie_policies_disagree_witness :
    drawTieExample.current_players.filter (fun p => !p.folded) ≠ [] ∧
    (∃ l1 p l2,
      drawTieExample.current_players.filter (fun p => !p.folded) = l1 ++ p :: l2 ∧
      determine_winner_id drawTieExample = some p.id ∧
      (∀ q ∈ l1 ++ p :: l2,
        evalLtB (evaluate_hand p.hand) (evaluate_hand q.hand) = false) ∧
      (∀ q ∈ l2, evalLtB (evaluate_hand q.hand) (evaluate_hand p.hand) = true)) :=
  ⟨by decide, showdown_tie_policies_disagree.1 drawTieExample (by decide)⟩

/-- Per-response outcome of one inner-loop iteration of the betting round:
the player folded, a contribution was accepted (recording the current bet
before the action and the player's new round total), or the response fell
short of the current bet and the same player is re-prompted with no state
change. -/
inductive StepEvent
  | reprompt (pid : String)
  | fold (pid : String)
  | accept (pid : String) (amount oldBet newTotal : Int)
deriving DecidableEq, Repr

/-- State of one betting round of `run_five_card_game`
(`five_card_game.rs`, first round lines 116-208; the second round repeats
the same code): the shared `PokerGame` plus the loop-local
`first_highest_bet` and `player_bet_index` (an `i32` in the source). -/
structure RoundState where
  game : PokerGame
  first_highest_bet : String
  idx : Int
deriving Repr

/-- `if player_bet_index >= current_players.len() as i32 { player_bet_index = 0 }`. -/
def wrapIdx (s : RoundState) : RoundState :=
  if s.idx ≥ (s.game.current_players.length : Int) then { s with idx := 0 } else s

/-- The break test `player_id == first_highest_bet ||
current_players.len() == 1`, reading `current_players[player_bet_index]` at
the already-wrapped index.  An out-of-range read would panic in Rust; it is
unreachable from the states the orchestrator builds (the index is wrapped
and the list nonempty), and the model stops there. -/
def stopRound (s : RoundState) : Bool :=
  match s.game.current_players.get? s.idx.toNat with
  | none => true
  | some p => p.id == s.first_highest_bet || s.game.current_players.length == 1

/-- `iter_mut().find(|p| p.id == pid)` followed by a mutation of the found
player: rebuild the list with the first matching player updated. -/
def updateFirstById : List Player → String → (Player → Player) → List Player
  | [], _, _ => []
  | p :: ps, pid, f => if p.id == pid then f p :: ps else p :: updateFirstById ps pid f

/-- The broadcast JSON built at the top of the inner loop:
`json!({"cards": ..., "bet": player_id, "pot": ..., "round current bet":
current_bet, "player bet amount": ...})`.  The card strings are omitted:
no claim concerns them. -/
structure BetPromptMsg where
  betTurn : String
  pot : Int
  roundCurrentBet : Int
  playerBetAmounts : List (String × Int)
deriving DecidableEq, Repr

def mkBetPromptMsg (s : RoundState) (pid : String) : BetPromptMsg :=
  { betTurn := pid
    pot := s.game.pot
    roundCurrentBet := s.game.current_bet
    playerBetAmounts := s.game.current_players.map (fun p => (p.id, p.bet_amount)) }

/-- One inner-loop iteration on the fetched response `b`:
on `-1` push a clone of the (first-by-id) player onto `players`, remove the
player at the index, and decrement the index (cancelling the outer loop's
increment); on a contribution with `player.bet_amount + b >= current_bet`
commit it (setting `first_highest_bet` and `current_bet` on a strict raise —
the source's intermediate `if current_bet < 0 { current_bet = 0 }` is
immediately overwritten by `current_bet = player.bet_amount + bet_amount`)
and increment the index; otherwise change nothing and re-prompt. -/
def actOn (s : RoundState) (b : Int) : RoundState × StepEvent :=
  match s.game.current_players.get? s.idx.toNat with
  | none => (s, .reprompt "")
  | some pAt =>
    match s.game.current_players.find? (fun p => p.id == pAt.id) with
    | none => (s, .reprompt pAt.id)
    | some player =>
      if b == -1 then
        ({ s with game := { s.game with
              players := s.game.players ++ [player],
              current_players := s.game.current_players.eraseIdx s.idx.toNat } },
         .fold pAt.id)
      else if player.bet_amount + b ≥ s.game.current_bet then
        let oldBet := s.game.current_bet
        let newTotal := player.bet_amount + b
        ({ game := { s.game with
              current_players := updateFirstById s.game.current_players pAt.id
                (fun p => { p with money_lost := p.money_lost + b,
                                   bet_amount := p.bet_amount + b }),
              pot := s.game.pot + b,
              current_bet := if newTotal > oldBet then newTotal else oldBet },
           first_highest_bet := if newTotal > oldBet then pAt.id else s.first_highest_bet,
           idx := s.idx + 1 },
         .accept pAt.id b oldBet newTotal)
      else (s, .reprompt pAt.id)

/-- The id of the player at the (already wrapped) index, used as the `"bet"`
field of the broadcast prompt. -/
def pidAt (s : RoundState) : String :=
  match s.game.current_players.get? s.idx.toNat with
  | some p => p.id
  | none => ""

/-- Result of driving a betting round over a list of responses: the final
state, one event and one broadcast prompt per consumed response, and whether
the round's break condition was reached (`done = false` means the supplied
responses ran out first). -/
structure RoundResult where
  state : RoundState
  events : List StepEvent
  msgs : List BetPromptMsg
  done : Bool
deriving Repr

/-- The betting-round loop over the list of responses that the Rust loop
fetches one by one from the database.  Each pass wraps the index, tests the
break condition, broadcasts the prompt, and consumes one response.  A
re-prompt leaves the state unchanged, so re-running the wrap and the break
test before the next response (which the nested Rust loops do not do) is a
no-op, and the nested loops flatten into this single recursion. -/
def runRound : List Int → RoundState → RoundResult
  | [], s =>
    let s1 := wrapIdx s
    { state := s1, events := [], msgs := [], done := stopRound s1 }
  | b :: rest, s =>
    let s1 := wrapIdx s
    if stopRound s1 then { state := s1, events := [], msgs := [], done := true }
    else
      let msg := mkBetPromptMsg s1 (pidAt s1)
      let (s2, ev) := actOn s1 b
      let r := runRound rest s2
      { state := r.state, events := ev :: r.events, msgs := msg :: r.msgs, done := r.done }

/-- The `poker_game.current_bet = -2; first_highest_bet = "none";
player_bet_index = 0` initialisation before each betting round. -/
def initRound (g : PokerGame) : RoundState :=
  { game := { g with current_bet := -2 }, first_highest_bet := "none", idx := 0 }

/-- `for player in current_players { money_lost += ante; pot += ante }`
(`five_card_game.rs` lines 74-80). -/
def collectAnte (g : PokerGame) (ante : Int) : PokerGame :=
  { g with
    current_players := g.current_players.map
      (fun p => { p with money_lost := p.money_lost + ante }),
    pot := g.pot + ante * g.current_players.length }

/-- Posting one blind in `run_texas_game` (`texas_game.rs` lines 99-108):
`if let Some(p) = current_players.get_mut(i) { p.bet_amount = blind;
p.money_lost += blind; pot += blind }`. -/
def postBlind (g : PokerGame) (i : Nat) (blind : Int) : PokerGame :=
  match g.current_players.get? i with
  | none => g
  | some p =>
    { g with
      current_players := g.current_players.set i
        { p with bet_amount := blind, money_lost := p.money_lost + blind },
      pot := g.pot + blind }

/-- Sum of the players' current per-round bet amounts. -/
def sumBets (ps : List Player) : Int :=
  (ps.map Player.bet_amount).sum

/-- The pot minus all per-round bets (of active players and of players moved
to the folded list): the chips swept into the pot before the current round. -/
def potBalance (s : RoundState) : Int :=
  s.game.pot - sumBets s.game.current_players - sumBets s.game.players

theorem sumBets_append (l1 l2 : List Player) :
    sumBets (l1 ++ l2) = sumBets l1 + sumBets l2 := by
  simp [sumBets]

theorem find?_of_get?_nodup :
    ∀ (L : List Player) (i : Nat) (p : Player), L.get? i = some p →
      (L.map Player.id).Nodup → L.find? (fun q => q.id == p.id) = some p
  | [], i, p, h, _ => by simp at h
  | q :: L, 0, p, h, hn => by
    simp only [List.get?] at h
    injection h with h
    subst h
    simp [List.find?]
  | q :: L, i + 1, p, h, hn => by
    simp only [List.get?] at h
    have hmem : p ∈ L := List.get?_mem h
    simp only [List.map_cons, List.nodup_cons] at hn
    have hq : (q.id == p.id) = false := by
      simp only [beq_eq_false_iff_ne, ne_eq]
      intro he
      exact hn.1 (he ▸ List.mem_map_of_mem Player.id hmem)
    rw [List.find?]
    rw [hq]
    exact find?_of_get?_nodup L i p h hn.2

theorem updateFirstById_of_get?_nodup :
    ∀ (L : List Player) (i : Nat) (p : Player) (f : Player → Player),
      L.get? i = some p → (L.map Player.id).Nodup →
      updateFirstById L p.id f = L.set i (f p)
  | [], i, p, f, h, _ => by simp at h
  | q :: L, 0, p, f, h, hn => by
    simp only [List.get?] at h
    injection h with h
    subst h
    simp [updateFirstById]
  | q :: L, i + 1, p, f, h, hn => by
    simp only [List.get?] at h
    have hmem : p ∈ L := List.get?_mem h
    simp only [List.map_cons, List.nodup_cons] at hn
    have hq : (q.id == p.id) = false := by
      simp only [beq_eq_false_iff_ne, ne_eq]
      intro he
      exact hn.1 (he ▸ List.mem_map_of_mem Player.id hmem)
    simp only [updateFirstById, hq, Bool.false_eq_true, if_false, List.set]
    rw [updateFirstById_of_get?_nodup L i p f h hn.2]

theorem updateFirstById_map_id :
    ∀ (L : List Player) (pid : String) (f : Player → Player),
      (∀ p, (f p).id = p.id) →
      (updateFirstById L pid f).map Player.id = L.map Player.id
  | [], _, _, _ => rfl
  | q :: L, pid, f, hf => by
    simp only [updateFirstById]
    by_cases h : (q.id == pid) = true
    · simp [h, hf]
    · simp only [Bool.not_eq_true] at h
      simp only [h, Bool.false_eq_true, if_false, List.map_cons]
      rw [updateFirstById_map_id L pid f hf]

theorem map_id_eraseIdx :
    ∀ (L : List Player) (i : Nat),
      (L.eraseIdx i).map Player.id = (L.map Player.id).eraseIdx i
  | [], _ => rfl
  | _ :: _, 0 => rfl
  | q :: L, i + 1 => by
    simp only [List.eraseIdx, List.map_cons]
    rw [map_id_eraseIdx L i]

theorem map_id_set_samekey :
    ∀ (L : List Player) (i : Nat) (p q : Player), L.get? i = some p →
      q.id = p.id → (L.set i q).map Player.id = L.map Player.id
  | [], i, p, q, h, _ => by simp at h
  | r :: L, 0, p, q, h, hid => by
    simp only [List.get?] at h
    injection h with h
    subst h
    simp [List.set, hid]
  | r :: L, i + 1, p, q, h, hid => by
    simp only [List.get?] at h
    simp only [List.set, List.map_cons]
    rw [map_id_set_samekey L i p q h hid]

theorem sumBets_cons (p : Player) (ps : List Player) :
    sumBets (p :: ps) = p.bet_amount + sumBets ps := by
  simp [sumBets]

theorem sumBets_eraseIdx :
    ∀ (L : List Player) (i : Nat) (p : Player), L.get? i = some p →
      sumBets (L.eraseIdx i) = sumBets L - p.bet_amount
  | [], i, p, h => by simp at h
  | q :: L, 0, p, h => by
    simp only [List.get?] at h
    injection h with h
    subst h
    simp only [List.eraseIdx, sumBets_cons]
    ring
  | q :: L, i + 1, p, h => by
    simp only [List.get?] at h
    simp only [List.eraseIdx, sumBets_cons]
    rw [sumBets_eraseIdx L i p h]
    ring

theorem sumBets_set :
    ∀ (L : List Player) (i : Nat) (p q : Player), L.get? i = some p →
      sumBets (L.set i q) = sumBets L - p.bet_amount + q.bet_amount
  | [], i, p, q, h => by simp at h
  | r :: L, 0, p, q, h => by
    simp only [List.get?] at h
    injection h with h
    subst h
    simp only [List.set, sumBets_cons]
    ring
  | r :: L, i + 1, p, q, h => by
    simp only [List.get?] at h
    simp only [List.set, sumBets_cons]
    rw [sumBets_set L i p q h]
    ring

/-- The mutation applied to the acting player by an accepted contribution:
`player.money_lost += b; player.bet_amount += b`. -/
def updContribution (b : Int) (p : Player) : Player :=
  { p with money_lost := p.money_lost + b, bet_amount := p.bet_amount + b }

theorem wrapIdx_eq_of_lt (s : RoundState)
    (h : s.idx < (s.game.current_players.length : Int)) : wrapIdx s = s := by
  unfold wrapIdx
  rw [if_neg (not_le.mpr h)]

theorem wrapIdx_game (s : RoundState) : (wrapIdx s).game = s.game := by
  unfold wrapIdx
  split <;> rfl

theorem wrapIdx_idem (s : RoundState) : wrapIdx (wrapIdx s) = wrapIdx s := by
  by_cases h : s.idx ≥ (s.game.current_players.length : Int)
  · have h1 : wrapIdx s = { s with idx := 0 } := by
      unfold wrapIdx
      rw [if_pos h]
    rw [h1]
    unfold wrapIdx
    by_cases h0 : (0 : Int) ≥ (s.game.current_players.length : Int)
    · rw [if_pos h0]
    · rw [if_neg h0]
  · have h1 : wrapIdx s = s := by
      unfold wrapIdx
      rw [if_neg h]
    rw [h1, h1]

theorem runRound_wrap (inputs : List Int) (s : RoundState) :
    runRound inputs s = runRound inputs (wrapIdx s) := by
  cases inputs with
  | nil => simp only [runRound, wrapIdx_idem]
  | cons b rest => simp only [runRound, wrapIdx_idem]

theorem stopRound_eq_false (s : RoundState) (p : Player)
    (hget : s.game.current_players.get? s.idx.toNat = some p)
    (hfhb : p.id ≠ s.first_highest_bet)
    (hlen : s.game.current_players.length ≠ 1) :
    stopRound s = false := by
  unfold stopRound
  rw [hget]
  simp [hfhb, hlen]

theorem stopRound_eq_true_of_fhb (s : RoundState) (p : Player)
    (hget : s.game.current_players.get? s.idx.toNat = some p)
    (hfhb : p.id = s.first_highest_bet) :
    stopRound s = true := by
  unfold stopRound
  rw [hget]
  simp [hfhb]

theorem actOn_fold_eq (s : RoundState) (p : Player)
    (hget : s.game.current_players.get? s.idx.toNat = some p)
    (hn : (s.game.current_players.map Player.id).Nodup) :
    actOn s (-1) =
      ({ s with game := { s.game with
            players := s.game.players ++ [p],
            current_players := s.game.current_players.eraseIdx s.idx.toNat } },
       .fold p.id) := by
  simp only [actOn, hget, find?_of_get?_nodup _ _ _ hget hn]
  rw [if_pos (by rfl : ((-1 : Int) == -1) = true)]

theorem actOn_accept_eq (s : RoundState) (p : Player) (b : Int)
    (hget : s.game.current_players.get? s.idx.toNat = some p)
    (hn : (s.game.current_players.map Player.id).Nodup)
    (hb : ¬(b = -1))
    (hge : p.bet_amount + b ≥ s.game.current_bet) :
    actOn s b =
      ({ game := { s.game with
            current_players :=
              s.game.current_players.set s.idx.toNat (updContribution b p),
            pot := s.game.pot + b,
            current_bet := if p.bet_amount + b > s.game.current_bet
                           then p.bet_amount + b else s.game.current_bet },
         first_highest_bet := if p.bet_amount + b > s.game.current_bet
                              then p.id else s.first_highest_bet,
         idx := s.idx + 1 },
       .accept p.id b s.game.current_bet (p.bet_amount + b)) := by
  have hbeq : (b == -1) = false := by
    simp [hb]
  simp only [actOn, hget, find?_of_get?_nodup _ _ _ hget hn, hbeq,
    Bool.false_eq_true, if_false, if_pos hge,
    updateFirstById_of_get?_nodup _ _ _ _ hget hn]
  rfl

theorem runRound_cons (b : Int) (rest : List Int) (s : RoundState)
    (hlt : s.idx < (s.game.current_players.length : Int))
    (hstop : stopRound s = false) :
    runRound (b :: rest) s =
      { state := (runRound rest (actOn s b).1).state,
        events := (actOn s b).2 :: (runRound rest (actOn s b).1).events,
        msgs := mkBetPromptMsg s (pidAt s) :: (runRound rest (actOn s b).1).msgs,
        done := (runRound rest (actOn s b).1).done } := by
  have hw : wrapIdx s = s := wrapIdx_eq_of_lt s hlt
  rcases hA : actOn s b with ⟨s2, ev⟩
  simp only [runRound, hw, hstop, Bool.false_eq_true, if_false, hA]

theorem actOn_preserves (s : RoundState) (b : Int)
    (hn : (s.game.current_players.map Player.id).Nodup) :
    potBalance (actOn s b).1 = potBalance s ∧
    (((actOn s b).1).game.current_players.map Player.id).Nodup := by
  cases hget : s.game.current_players.get? s.idx.toNat with
  | none =>
    have hAct : actOn s b = (s, .reprompt "") := by
      simp only [actOn, hget]
    rw [hAct]
    exact ⟨rfl, hn⟩
  | some pAt =>
    by_cases hb : b = -1
    · subst hb
      rw [actOn_fold_eq s pAt hget hn]
      constructor
      · simp only [potBalance]
        rw [sumBets_eraseIdx _ _ _ hget, sumBets_append]
        rw [show sumBets [pAt] = pAt.bet_amount by simp [sumBets]]
        ring
      · rw [map_id_eraseIdx]
        exact hn.sublist (List.eraseIdx_sublist _ _)
    · by_cases hge : pAt.bet_amount + b ≥ s.game.current_bet
      · rw [actOn_accept_eq s pAt b hget hn hb hge]
        constructor
        · simp only [potBalance]
          rw [sumBets_set _ _ _ _ hget]
          simp only [updContribution]
          ring
        · show (List.map Player.id
            (s.game.current_players.set s.idx.toNat (updContribution b pAt))).Nodup
          rw [map_id_set_samekey s.game.current_players s.idx.toNat pAt
            (updContribution b pAt) hget rfl]
          exact hn
      · have hbeq : (b == -1) = false := by simp [hb]
        have hAct : actOn s b = (s, .reprompt pAt.id) := by
          simp only [actOn, hget, find?_of_get?_nodup _ _ _ hget hn, hbeq,
            Bool.false_eq_true, if_false, if_neg hge]
        rw [hAct]
        exact ⟨rfl, hn⟩

theorem runRound_potBalance : ∀ (inputs : List Int) (s : RoundState),
    (s.game.current_players.map Player.id).Nodup →
    potBalance (runRound inputs s).state = potBalance s ∧
    ((runRound inputs s).state.game.current_players.map Player.id).Nodup
  | [], s, hn => by
    simp only [runRound]
    refine ⟨?_, ?_⟩
    · unfold potBalance
      rw [wrapIdx_game]
    · rw [wrapIdx_game]
      exact hn
  | b :: rest, s, hn => by
    have hnw : ((wrapIdx s).game.current_players.map Player.id).Nodup := by
      rw [wrapIdx_game]; exact hn
    have hpw : potBalance (wrapIdx s) = potBalance s := by
      unfold potBalance; rw [wrapIdx_game]
    simp only [runRound]
    by_cases hstop : stopRound (wrapIdx s) = true
    · rw [if_pos hstop]
      exact ⟨hpw, hnw⟩
    · rw [if_neg hstop]
      obtain ⟨h1, h2⟩ := actOn_preserves (wrapIdx s) b hnw
      rcases hA : actOn (wrapIdx s) b with ⟨s2, ev⟩
      rw [hA] at h1 h2
      simp only at h1 h2
      obtain ⟨ih1, ih2⟩ := runRound_potBalance rest s2 h2
      exact ⟨by rw [ih1, h1, hpw], ih2⟩

theorem actOn_ids_sublist (s : RoundState) (b : Int) :
    ((actOn s b).1.game.current_players.map Player.id).Sublist
      (s.game.current_players.map Player.id) := by
  cases hget : s.game.current_players.get? s.idx.toNat with
  | none =>
    simp only [actOn, hget]
    exact List.Sublist.refl _
  | some pAt =>
    cases hfind : s.game.current_players.find? (fun p => p.id == pAt.id) with
    | none =>
      simp only [actOn, hget, hfind]
      exact List.Sublist.refl _
    | some player =>
      simp only [actOn, hget, hfind]
      by_cases hb : (b == -1) = true
      · rw [if_pos hb]
        simp only
        rw [map_id_eraseIdx]
        exact List.eraseIdx_sublist _ _
      · rw [if_neg hb]
        by_cases hge : player.bet_amount + b ≥ s.game.current_bet
        · rw [if_pos hge]
          simp only
          rw [updateFirstById_map_id s.game.current_players pAt.id
            (fun p => { p with money_lost := p.money_lost + b,
                               bet_amount := p.bet_amount + b })
            (fun p => rfl)]
        · rw [if_neg hge]

theorem runRound_ids_sublist : ∀ (inputs : List Int) (s : RoundState),
    ((runRound inputs s).state.game.current_players.map Player.id).Sublist
      (s.game.current_players.map Player.id)
  | [], s => by
    simp only [runRound]
    rw [wrapIdx_game]
  | b :: rest, s => by
    simp only [runRound]
    by_cases hstop : stopRound (wrapIdx s) = true
    · rw [if_pos hstop]
      simp only
      rw [wrapIdx_game]
    · rw [if_neg hstop]
      rcases hA : actOn (wrapIdx s) b with ⟨s2, ev⟩
      have hstep := actOn_ids_sublist (wrapIdx s) b
      rw [hA] at hstep
      simp only at hstep
      rw [wrapIdx_game] at hstep
      exact (runRound_ids_sublist rest s2).trans hstep

/-- C5: throughout a betting round, pot = (chips swept before the round) +
(sum of all per-round bets, of active players and of players folded during
the hand): `runRound` preserves `potBalance` (fold moves the player's bet
from the active sum to the folded sum and accept credits pot and bet
equally); ante collection credits the pot with `ante` per player and touches
no bet amount (antes are swept chips); posting a blind from a zero bet
credits the pot and the player's bet equally, preserving the balance. -/
theorem pot_equals_bets_plus_swept :
    (∀ (inputs : List Int) (s : RoundState),
      (s.game.current_players.map Player.id).Nodup →
      (runRound inputs s).state.game.pot
        = potBalance s
          + sumBets (runRound inputs s).state.game.current_players
          + sumBets (runRound inputs s).state.game.players) ∧
    (∀ (g : PokerGame) (ante : Int),
      (collectAnte g ante).pot = g.pot + ante * g.current_players.length ∧
      (collectAnte g ante).current_players.map Player.bet_amount
        = g.current_players.map Player.bet_amount ∧
      (collectAnte g ante).players = g.players) ∧
    (∀ (g : PokerGame) (i : Nat) (blind : Int) (p : Player),
      g.current_players.get? i = some p → p.bet_amount = 0 →
      (postBlind g i blind).pot
        - sumBets (postBlind g i blind).current_players
        - sumBets (postBlind g i blind).players
        = g.pot - sumBets g.current_players - sumBets g.players) := by
  refine ⟨?_, ?_, ?_⟩
  · intro inputs s hn
    have h := (runRound_potBalance inputs s hn).1
    unfold potBalance at h ⊢
    linarith [h]
  · intro g ante
    refine ⟨rfl, ?_, rfl⟩
    simp [collectAnte]
  · intro g i blind p hget hbet
    simp only [postBlind, hget]
    rw [sumBets_set _ _ _ _ hget, hbet]
    simp only
    ring

/-- Two-seat round state used by the C5 and C6 witnesses. -/
def twoSeatRound : RoundState :=
  initRound
    { players := [], pot := 10, current_bet := 0,
      current_players := [⟨"A", [], false, 0, 0, 0⟩, ⟨"B", [], false, 0, 0, 0⟩] }

/-- Witness for C5 at a two-player round (check, raise 5, call 5). -/
theorem pot_equals_bets_plus_swept_witness :
    (twoSeatRound.game.current_players.map Player.id).Nodup ∧
    (runRound [0, 5, 5] twoSeatRound).state.game.pot
      = potBalance twoSeatRound
        + sumBets (runRound [0, 5, 5] twoSeatRound).state.game.current_players
        + sumBets (runRound [0, 5, 5] twoSeatRound).state.game.players :=
  ⟨by decide, pot_equals_bets_plus_swept.1 [0, 5, 5] twoSeatRound (by decide)⟩

/-- C6: accepting a fold (`-1`) from the active player at the index removes
exactly that player from the active list (length decreases by exactly 1) and
appends them to the folded `players` list; and no later step of the round
ever re-inserts an id that has left the active list. -/
theorem fold_removes_player_permanently :
    (∀ (s : RoundState) (p : Player),
      s.game.current_players.get? s.idx.toNat = some p →
      (s.game.current_players.map Player.id).Nodup →
      (actOn s (-1)).1.game.current_players.length
          = s.game.current_players.length - 1 ∧
      1 ≤ s.game.current_players.length ∧
      (actOn s (-1)).1.game.players = s.game.players ++ [p] ∧
      (actOn s (-1)).2 = StepEvent.fold p.id) ∧
    (∀ (inputs : List Int) (s : RoundState) (pid : String),
      pid ∉ s.game.current_players.map Player.id →
      pid ∉ (runRound inputs s).state.game.current_players.map Player.id) := by
  constructor
  · intro s p hget hn
    have hlt : s.idx.toNat < s.game.current_players.length := by
      rcases List.get?_eq_some.mp hget with ⟨h, _⟩
      exact h
    rw [actOn_fold_eq s p hget hn]
    refine ⟨?_, ?_, rfl, rfl⟩
    · simp only
      rw [List.length_eraseIdx, if_pos hlt]
    · omega
  · intro inputs s pid hnot
    intro hmem
    exact hnot ((runRound_ids_sublist inputs s).subset hmem)

/-- Witness for C6: a fold by the first of two players. -/
theorem fold_removes_player_permanently_witness :
    (twoSeatRound.game.current_players.get? twoSeatRound.idx.toNat
      = some ⟨"A", [], false, 0, 0, 0⟩) ∧
    ((actOn twoSeatRound (-1)).1.game.current_players.length
        = twoSeatRound.game.current_players.length - 1 ∧
      1 ≤ twoSeatRound.game.current_players.length ∧
      (actOn twoSeatRound (-1)).1.game.players
        = twoSeatRound.game.players ++ [⟨"A", [], false, 0, 0, 0⟩] ∧
      (actOn twoSeatRound (-1)).2 = StepEvent.fold "A") :=
  ⟨rfl,
   fold_removes_player_permanently.1 twoSeatRound
     ⟨"A", [], false, 0, 0, 0⟩ rfl (by decide)⟩

/-- The client's rendering of the `round current bet` key
(`player/src/screens/in_game.rs` and `player/src/main.rs`):
`if curr_bet < 0 { curr_bet = 0 }` before display. -/
def displayCurrentBet (v : Int) : Int :=
  if v < 0 then 0 else v

/-- C4 (counterexample): the claim says every broadcast `round current bet`
value is non-negative, with the sentinel replaced by 0 in the payload.  In
the two-player round where both players check, the prompts broadcast by the
server carry `-2` (the raw sentinel) and then `0`: the first payload is
negative. -/
theorem broadcast_current_bet_counterexample :
    (runRound [0, 0] twoSeatRound).msgs.map (fun m => m.roundCurrentBet)
      = [-2, 0] ∧
    ¬(0 ≤ (-2 : Int)) :=
  ⟨rfl, by decide⟩

/-- C4 (amended): the broadcast payload carries the raw `current_bet` —
which is the `-2` sentinel at the start of every round — and it is the
client's display layer that clamps negative values to 0, so every DISPLAYED
`round current bet` is non-negative and the sentinel displays as 0. -/
theorem display_current_bet_clamped :
    (∀ v : Int, 0 ≤ displayCurrentBet v) ∧
    (∀ (s : RoundState) (pid : String),
      (mkBetPromptMsg s pid).roundCurrentBet = s.game.current_bet) ∧
    (∀ g : PokerGame, (initRound g).game.current_bet = -2) ∧
    displayCurrentBet (-2) = 0 := by
  refine ⟨?_, fun s pid => rfl, fun g => rfl, rfl⟩
  intro v
  unfold displayCurrentBet
  split
  · exact le_refl 0
  · rename_i h
    exact le_of_not_lt h

/-- Apply the accepted-contribution update `updContribution v` to the `k`
players at positions `i, i+1, …, i+k-1`. -/
def updBlock (v : Int) : List Player → Nat → Nat → List Player
  | L, _, 0 => L
  | L, i, k + 1 =>
    match L.get? i with
    | none => L
    | some p => updBlock v (L.set i (updContribution v p)) (i + 1) k

/-- The events of a block of `k` accepted calls by the players at positions
`i, …, i+k-1` (given by their ids), each contributing `v` to exactly reach
the standing bet `cb`. -/
def blockEvents (ids : List String) : Nat → Nat → Int → Int → List StepEvent
  | _, 0, _, _ => []
  | i, k + 1, v, cb =>
    StepEvent.accept (ids.getD i "") v cb cb :: blockEvents ids (i + 1) k v cb

/-- The round state after a block of `k` accepted calls of `v` each starting
at position `i`: the block players' bets and money-lost grow by `v`, the pot
by `k*v`, the index advances past the block; bet and marker are unchanged. -/
def afterBlock (s : RoundState) (v : Int) (i k : Nat) : RoundState :=
  { game := { s.game with
      current_players := updBlock v s.game.current_players i k,
      pot := s.game.pot + k * v },
    first_highest_bet := s.first_highest_bet,
    idx := ((i + k : Nat) : Int) }

theorem getD_map_id (L : List Player) (i : Nat) (p : Player)
    (h : L.get? i = some p) : (L.map Player.id).getD i "" = p.id := by
  rw [List.getD_eq_getElem?_getD, List.getElem?_map, ← List.get?_eq_getElem?, h]
  rfl

theorem updBlock_map_id (v : Int) :
    ∀ (L : List Player) (i k : Nat),
      (updBlock v L i k).map Player.id = L.map Player.id
  | L, i, 0 => rfl
  | L, i, k + 1 => by
    simp only [updBlock]
    cases hget : L.get? i with
    | none => rfl
    | some p =>
      rw [updBlock_map_id v (L.set i (updContribution v p)) (i + 1) k]
      exact map_id_set_samekey L i p (updContribution v p) hget rfl

theorem updBlock_length (v : Int) :
    ∀ (L : List Player) (i k : Nat), (updBlock v L i k).length = L.length := by
  intro L i k
  have h := updBlock_map_id v L i k
  have := congrArg List.length h
  simpa using this

theorem updBlock_get?_ge (v : Int) :
    ∀ (k : Nat) (L : List Player) (i j : Nat), i + k ≤ j →
      (updBlock v L i k).get? j = L.get? j
  | 0, L, i, j, h => rfl
  | k + 1, L, i, j, h => by
    simp only [updBlock]
    cases hget : L.get? i with
    | none => rfl
    | some p =>
      rw [updBlock_get?_ge v k (L.set i (updContribution v p)) (i + 1) j (by omega)]
      exact List.get?_set_ne _ _ (by omega)

theorem afterBlock_zero (s : RoundState) (v : Int) (i : Nat)
    (hidx : s.idx = (i : Int)) : afterBlock s v i 0 = s := by
  unfold afterBlock
  cases s with
  | mk game fhb idx =>
    cases game with
    | mk players pot cb cur =>
      simp only [updBlock]
      simp only at hidx
      simp [hidx]

/-- A block of `k` identical call responses `v`: every one of the players at
positions `i, …, i+k-1` (none of whom is the `first_highest_bet` marker)
contributes `v`, exactly reaching the standing bet, so each response is
accepted without a raise and the loop marches the index across the block. -/
theorem runRound_callBlock (v : Int) (hv : ¬(v = -1)) :
    ∀ (k : Nat) (rest : List Int) (s : RoundState) (i : Nat),
      s.idx = (i : Int) →
      i + k ≤ s.game.current_players.length →
      2 ≤ s.game.current_players.length →
      (s.game.current_players.map Player.id).Nodup →
      (∀ j, j < k → ∃ p, s.game.current_players.get? (i + j) = some p ∧
        p.bet_amount + v = s.game.current_bet ∧ p.id ≠ s.first_highest_bet) →
      ∃ ms, runRound (List.replicate k v ++ rest) s =
        { state := (runRound rest (afterBlock s v i k)).state,
          events := blockEvents (s.game.current_players.map Player.id) i k v
              s.game.current_bet ++ (runRound rest (afterBlock s v i k)).events,
          msgs := ms ++ (runRound rest (afterBlock s v i k)).msgs,
          done := (runRound rest (afterBlock s v i k)).done }
  | 0, rest, s, i, hidx, hik, h2, hn, hblock => by
    refine ⟨[], ?_⟩
    rw [afterBlock_zero s v i hidx]
    simp only [List.replicate, List.nil_append, blockEvents]
  | k + 1, rest, s, i, hidx, hik, h2, hn, hblock => by
    obtain ⟨p0, hget0, hbet0, hfhb0⟩ := hblock 0 (Nat.succ_pos k)
    rw [Nat.add_zero] at hget0
    have hlen : i < s.game.current_players.length := by omega
    have hidxNat : s.idx.toNat = i := by rw [hidx]; simp
    have hget0' : s.game.current_players.get? s.idx.toNat = some p0 := by
      rw [hidxNat]; exact hget0
    have hltI : s.idx < (s.game.current_players.length : Int) := by
      rw [hidx]; exact_mod_cast hlen
    have hstop : stopRound s = false :=
      stopRound_eq_false s p0 hget0' hfhb0 (by omega)
    have hge : p0.bet_amount + v ≥ s.game.current_bet := ge_of_eq hbet0
    have hnr : ¬(p0.bet_amount + v > s.game.current_bet) := by
      rw [hbet0]
      exact lt_irrefl _
    rw [show List.replicate (k + 1) v ++ rest = v :: (List.replicate k v ++ rest) by
      simp [List.replicate_succ]]
    rw [runRound_cons v _ s hltI hstop]
    rw [actOn_accept_eq s p0 v hget0' hn hv hge]
    simp only [if_neg hnr]
    obtain ⟨ms', hIH⟩ := runRound_callBlock v hv k rest
      { game := { s.game with
          current_players :=
            s.game.current_players.set s.idx.toNat (updContribution v p0),
          pot := s.game.pot + v,
          current_bet := s.game.current_bet },
        first_highest_bet := s.first_highest_bet,
        idx := s.idx + 1 }
      (i + 1)
      (by simp only [hidx]; push_cast; ring)
      (by simp only [List.length_set]; omega)
      (by simp only [List.length_set]; omega)
      (by simp only
          rw [map_id_set_samekey s.game.current_players s.idx.toNat p0
            (updContribution v p0) hget0' rfl]
          exact hn)
      (by intro j hj
          obtain ⟨p, hp, hpb, hpf⟩ := hblock (j + 1) (by omega)
          refine ⟨p, ?_, hpb, hpf⟩
          simp only
          rw [show i + 1 + j = i + (j + 1) by omega]
          rw [hidxNat]
          rw [List.get?_set_ne _ _ (by omega)]
          exact hp)
    simp only at hIH
    rw [hIH]
    refine ⟨mkBetPromptMsg s (pidAt s) :: ms', ?_⟩
    have hA : afterBlock
        { game := { s.game with
            current_players :=
              s.game.current_players.set s.idx.toNat (updContribution v p0),
            pot := s.game.pot + v,
            current_bet := s.game.current_bet },
          first_highest_bet := s.first_highest_bet,
          idx := s.idx + 1 }
        v (i + 1) k = afterBlock s v i (k + 1) := by
      unfold afterBlock
      simp only
      rw [hidxNat]
      have hU : updBlock v s.game.current_players i (k + 1)
          = updBlock v
              (s.game.current_players.set i (updContribution v p0)) (i + 1) k := by
        conv_lhs => rw [updBlock]
        rw [hget0]
      rw [hU]
      have hP : s.game.pot + v + (k : Int) * v
          = s.game.pot + ((k : Nat) + 1 : Nat) * v := by
        push_cast
        ring
      rw [hP]
      have hI : ((i + 1 + k : Nat) : Int) = ((i + (k + 1) : Nat) : Int) := by
        push_cast
        ring
      rw [hI]
    rw [hA]
    have hE : blockEvents (s.game.current_players.map Player.id) i (k + 1) v
        s.game.current_bet
        = StepEvent.accept p0.id v s.game.current_bet s.game.current_bet ::
          blockEvents (List.map Player.id
            (s.game.current_players.set s.idx.toNat (updContribution v p0)))
            (i + 1) k v s.game.current_bet := by
      rw [blockEvents]
      rw [getD_map_id _ _ _ hget0]
      rw [hidxNat, map_id_set_samekey s.game.current_players i p0
        (updContribution v p0) hget0 rfl]
    rw [hE]
    rw [hbet0]
    simp [List.cons_append]

theorem updBlock_get?_lt (v : Int) :
    ∀ (k : Nat) (L : List Player) (i j : Nat), j < i →
      (updBlock v L i k).get? j = L.get? j
  | 0, L, i, j, h => rfl
  | k + 1, L, i, j, h => by
    simp only [updBlock]
    cases hget : L.get? i with
    | none => rfl
    | some p =>
      rw [updBlock_get?_lt v k (L.set i (updContribution v p)) (i + 1) j (by omega)]
      exact List.get?_set_ne _ _ (by omega)

theorem nodup_ids_ne (L : List Player) (hn : (L.map Player.id).Nodup)
    {i j : Nat} {p q : Player} (hi : L.get? i = some p) (hj : L.get? j = some q)
    (hij : i ≠ j) : p.id ≠ q.id := by
  have hi' : (L.map Player.id).get? i = some p.id := by
    rw [List.get?_eq_getElem?, List.getElem?_map, ← List.get?_eq_getElem?, hi]
    rfl
  have hj' : (L.map Player.id).get? j = some q.id := by
    rw [List.get?_eq_getElem?, List.getElem?_map, ← List.get?_eq_getElem?, hj]
    rfl
  obtain ⟨hil, hig⟩ := List.get?_eq_some.mp hi'
  obtain ⟨hjl, hjg⟩ := List.get?_eq_some.mp hj'
  intro he
  apply hij
  have hfin : (⟨i, hil⟩ : Fin (L.map Player.id).length) = ⟨j, hjl⟩ := by
    apply (List.Nodup.get_inj_iff hn).mp
    rw [hig, hjg, he]
  exact congrArg Fin.val hfin

/-- Does the event record an accepted contribution? -/
def isAcceptEvent : StepEvent → Bool
  | .accept _ _ _ _ => true
  | _ => false

/-- Does the accepted contribution strictly raise the standing bet (the
sentinel counting as a standing bet of 0, so that an opening check is not a
raise but an opening bet above 0 is)? -/
def isRaiseEvent : StepEvent → Bool
  | .accept _ _ oldBet newTotal => decide (max oldBet 0 < newTotal)
  | _ => false

theorem blockEvents_countP_accept (ids : List String) :
    ∀ (i k : Nat) (v cb : Int),
      (blockEvents ids i k v cb).countP isAcceptEvent = k
  | i, 0, v, cb => rfl
  | i, k + 1, v, cb => by
    simp only [blockEvents, List.countP_cons]
    rw [blockEvents_countP_accept ids (i + 1) k v cb]
    simp [isAcceptEvent]

theorem blockEvents_countP_raise (ids : List String) :
    ∀ (i k : Nat) (v cb : Int),
      (blockEvents ids i k v cb).countP isRaiseEvent = 0
  | i, 0, v, cb => rfl
  | i, k + 1, v, cb => by
    simp only [blockEvents, List.countP_cons]
    rw [blockEvents_countP_raise ids (i + 1) k v cb]
    simp [isRaiseEvent]

/-- The state after the opening action of a round started at the `-2`
sentinel: seat 0 contributed `b` from a zero bet; the engine recorded seat 0
as `first_highest_bet` and the current bet as `b`. -/
def postOpen (g : PokerGame) (b : Int) (p0 : Player) : RoundState :=
  { game :=
      { players := g.players
        pot := g.pot + b
        current_bet := b
        current_players := g.current_players.set 0 (updContribution b p0) }
    first_highest_bet := p0.id
    idx := 1 }

/-- The opening action of a round started at the `-2` sentinel: the player in
seat 0 contributes `b ≥ 0` from a zero bet, which the engine accepts as a
strict increase over the sentinel, setting `first_highest_bet` to seat 0 and
the current bet to `b`. -/
theorem runRound_opening (g : PokerGame) (b : Int) (rest : List Int)
    (p0 : Player)
    (hget0 : g.current_players.get? 0 = some p0)
    (hn : (g.current_players.map Player.id).Nodup)
    (hb0 : p0.bet_amount = 0)
    (hbpos : 0 ≤ b)
    (hlen : 2 ≤ g.current_players.length)
    (hid : p0.id ≠ "none") :
    runRound (b :: rest) (initRound g) =
      { state := (runRound rest (postOpen g b p0)).state,
        events := StepEvent.accept p0.id b (-2) b ::
          (runRound rest (postOpen g b p0)).events,
        msgs := mkBetPromptMsg (initRound g) (pidAt (initRound g)) ::
          (runRound rest (postOpen g b p0)).msgs,
        done := (runRound rest (postOpen g b p0)).done } := by
  have hget0' : (initRound g).game.current_players.get?
      (initRound g).idx.toNat = some p0 := hget0
  have hn2 : (initRound g).game.current_players.length ≠ 1 := by
    show g.current_players.length ≠ 1
    omega
  have hstop : stopRound (initRound g) = false :=
    stopRound_eq_false (initRound g) p0 hget0' hid hn2
  have hltI : (initRound g).idx
      < ((initRound g).game.current_players.length : Int) := by
    show (0 : Int) < (g.current_players.length : Int)
    exact_mod_cast Nat.lt_of_lt_of_le Nat.zero_lt_two hlen
  have hbne : ¬(b = -1) := by omega
  have hge : p0.bet_amount + b ≥ (initRound g).game.current_bet := by
    show p0.bet_amount + b ≥ -2
    omega
  have hraise : b > (initRound g).game.current_bet := by
    show b > -2
    omega
  rw [runRound_cons b rest (initRound g) hltI hstop]
  rw [actOn_accept_eq (initRound g) p0 b hget0' hn hbne hge]
  simp only [hb0, zero_add, if_pos hraise]
  rfl

theorem get?_is_some_of_lt (L : List Player) (m : Nat) (h : m < L.length) :
    ∃ p, L.get? m = some p := by
  cases hL : L.get? m with
  | none =>
    rw [List.get?_eq_none] at hL
    omega
  | some p => exact ⟨p, rfl⟩

theorem updBlock_get?_mem (v : Int) :
    ∀ (k : Nat) (L : List Player) (i j : Nat), i ≤ j → j < i + k → j < L.length →
      (updBlock v L i k).get? j = (L.get? j).map (updContribution v)
  | 0, L, i, j, h1, h2, h3 => by omega
  | k + 1, L, i, j, h1, h2, h3 => by
    simp only [updBlock]
    cases hget : L.get? i with
    | none =>
      rw [List.get?_eq_none] at hget
      omega
    | some p =>
      by_cases hij : j = i
      · subst hij
        rw [updBlock_get?_lt v k _ (j + 1) j (by omega)]
        rw [List.get?_eq_getElem?, List.getElem?_set_self (by omega), hget]
        rfl
      · rw [updBlock_get?_mem v k (L.set i (updContribution v p)) (i + 1) j
          (by omega) (by omega) (by simp only [List.length_set]; omega)]
        rw [List.get?_set_ne _ _ (by omega)]

/-- An all-checks round over `n + 2` seats: seat 0's check is accepted as
the opening action (strictly above the `-2` sentinel, setting the marker to
seat 0 and the bet to 0), the other `n + 1` seats check, and the wrapped
index returns to seat 0 — the marker — ending the round. -/
theorem runRound_all_checks (g : PokerGame) (n : Nat) (p0 : Player)
    (hN : g.current_players.length = n + 2)
    (hget0 : g.current_players.get? 0 = some p0)
    (hn : (g.current_players.map Player.id).Nodup)
    (hbets : ∀ p ∈ g.current_players, p.bet_amount = 0)
    (hnone : ∀ p ∈ g.current_players, p.id ≠ "none") :
    (runRound (List.replicate (n + 2) 0) (initRound g)).done = true ∧
    (runRound (List.replicate (n + 2) 0) (initRound g)).events
      = StepEvent.accept p0.id 0 (-2) 0 ::
        blockEvents (g.current_players.map Player.id) 1 (n + 1) 0 0 := by
  have hb0 : p0.bet_amount = 0 := hbets p0 (List.get?_mem hget0)
  have hid0 : p0.id ≠ "none" := hnone p0 (List.get?_mem hget0)
  have hlen2 : 2 ≤ g.current_players.length := by omega
  rw [show List.replicate (n + 2) (0 : Int) = 0 :: List.replicate (n + 1) 0 from rfl]
  rw [runRound_opening g 0 (List.replicate (n + 1) 0) p0 hget0 hn hb0 le_rfl
    hlen2 hid0]
  have hmapS : (List.map Player.id
      (g.current_players.set 0 (updContribution 0 p0)))
      = g.current_players.map Player.id :=
    map_id_set_samekey g.current_players 0 p0 (updContribution 0 p0) hget0 rfl
  obtain ⟨ms, hblockEq⟩ := runRound_callBlock 0 (by omega) (n + 1) []
    (postOpen g 0 p0) 1
    (by simp [postOpen])
    (by simp [postOpen, List.length_set]; omega)
    (by simp [postOpen, List.length_set]; omega)
    (by show (List.map Player.id
          (g.current_players.set 0 (updContribution 0 p0))).Nodup
        rw [hmapS]
        exact hn)
    (by intro j hj
        obtain ⟨pj, hpj⟩ := get?_is_some_of_lt g.current_players (1 + j) (by omega)
        refine ⟨pj, ?_, ?_, ?_⟩
        · show (g.current_players.set 0 (updContribution 0 p0)).get? (1 + j)
            = some pj
          rw [List.get?_set_ne _ _ (by omega)]
          exact hpj
        · show pj.bet_amount + 0 = 0
          rw [hbets pj (List.get?_mem hpj)]
          ring
        · show pj.id ≠ p0.id
          exact nodup_ids_ne g.current_players hn hpj hget0 (by omega))
  rw [show List.replicate (n + 1) (0 : Int)
      = List.replicate (n + 1) (0 : Int) ++ [] by simp]
  rw [hblockEq]
  constructor
  · show (runRound [] (afterBlock (postOpen g 0 p0) 0 1 (n + 1))).done = true
    have hlenA : (afterBlock (postOpen g 0 p0) 0 1 (n + 1)).game.current_players.length
        = n + 2 := by
      simp only [afterBlock, postOpen, updBlock_length, List.length_set]
      exact hN
    have hidxA : (afterBlock (postOpen g 0 p0) 0 1 (n + 1)).idx
        = ((n + 2 : Nat) : Int) := by
      simp [afterBlock]
      push_cast
      ring
    simp only [runRound]
    have hwrap : wrapIdx (afterBlock (postOpen g 0 p0) 0 1 (n + 1))
        = { afterBlock (postOpen g 0 p0) 0 1 (n + 1) with idx := 0 } := by
      unfold wrapIdx
      rw [if_pos]
      rw [hidxA, hlenA]
    rw [hwrap]
    apply stopRound_eq_true_of_fhb _ (updContribution 0 p0)
    · show (afterBlock (postOpen g 0 p0) 0 1 (n + 1)).game.current_players.get?
        ((0 : Int).toNat) = some (updContribution 0 p0)
      simp only [afterBlock, postOpen]
      rw [show ((0 : Int).toNat) = 0 from rfl]
      rw [updBlock_get?_lt 0 (n + 1) _ 1 0 (by omega)]
      rw [List.get?_eq_getElem?, List.getElem?_set_self (by omega)]
    · rfl
  · show StepEvent.accept p0.id 0 (-2) 0 ::
        (blockEvents (List.map Player.id
          ((postOpen g 0 p0).game.current_players)) 1 (n + 1) 0
          ((postOpen g 0 p0).game.current_bet)
          ++ (runRound [] (afterBlock (postOpen g 0 p0) 0 1 (n + 1))).events)
      = StepEvent.accept p0.id 0 (-2) 0 ::
        blockEvents (g.current_players.map Player.id) 1 (n + 1) 0 0
    have hE : (runRound [] (afterBlock (postOpen g 0 p0) 0 1 (n + 1))).events
        = [] := by
      simp [runRound]
    rw [hE]
    rw [show (postOpen g 0 p0).game.current_players
        = g.current_players.set 0 (updContribution 0 p0) from rfl]
    rw [hmapS]
    simp only [List.append_nil]
    rfl

theorem hwrapAll (t : RoundState)
    (ht : t.idx ≥ (t.game.current_players.length : Int)) :
    wrapIdx t
      = { game := t.game
          first_highest_bet := t.first_highest_bet
          idx := 0 } := by
  unfold wrapIdx
  rw [if_pos ht]

theorem hwrapLt (t : RoundState)
    (ht : t.idx < (t.game.current_players.length : Int)) :
    wrapIdx t = t := wrapIdx_eq_of_lt t ht

/-- A round over `n + 2` seats in which every earlier seat checks, the last
seat raises to `r > 0`, and every other seat then calls `r`: the action
returns to the last seat — the marker — ending the round after
`(n + 1) + 1 + (n + 1) = 2(n + 2) - 1` accepted actions. -/
theorem runRound_raise_last (g : PokerGame) (n : Nat) (p0 plast : Player)
    (r : Int)
    (hN : g.current_players.length = n + 2)
    (hget0 : g.current_players.get? 0 = some p0)
    (hgetL : g.current_players.get? (n + 1) = some plast)
    (hn : (g.current_players.map Player.id).Nodup)
    (hbets : ∀ p ∈ g.current_players, p.bet_amount = 0)
    (hnone : ∀ p ∈ g.current_players, p.id ≠ "none")
    (hr : 0 < r) :
    (runRound (0 :: (List.replicate n 0 ++ r :: List.replicate (n + 1) r))
      (initRound g)).done = true ∧
    (runRound (0 :: (List.replicate n 0 ++ r :: List.replicate (n + 1) r))
      (initRound g)).events
      = StepEvent.accept p0.id 0 (-2) 0 ::
        (blockEvents (g.current_players.map Player.id) 1 n 0 0 ++
          StepEvent.accept plast.id r 0 r ::
            (blockEvents (g.current_players.map Player.id) 0 (n + 1) r r ++ [])) := by
  have hb0 : p0.bet_amount = 0 := hbets p0 (List.get?_mem hget0)
  have hbL : plast.bet_amount = 0 := hbets plast (List.get?_mem hgetL)
  have hid0 : p0.id ≠ "none" := hnone p0 (List.get?_mem hget0)
  have hlen2 : 2 ≤ g.current_players.length := by omega
  have hne0L : p0.id ≠ plast.id := nodup_ids_ne g.current_players hn hget0 hgetL (by omega)
  rw [runRound_opening g 0 (List.replicate n 0 ++ r :: List.replicate (n + 1) r)
    p0 hget0 hn hb0 le_rfl hlen2 hid0]
  have hmapS : (List.map Player.id
      (g.current_players.set 0 (updContribution 0 p0)))
      = g.current_players.map Player.id :=
    map_id_set_samekey g.current_players 0 p0 (updContribution 0 p0) hget0 rfl
  obtain ⟨ms1, hblockEq1⟩ := runRound_callBlock 0 (by omega) n
    (r :: List.replicate (n + 1) r) (postOpen g 0 p0) 1
    (by simp [postOpen])
    (by simp [postOpen, List.length_set]; omega)
    (by simp [postOpen, List.length_set]; omega)
    (by show (List.map Player.id
          (g.current_players.set 0 (updContribution 0 p0))).Nodup
        rw [hmapS]
        exact hn)
    (by intro j hj
        obtain ⟨pj, hpj⟩ := get?_is_some_of_lt g.current_players (1 + j) (by omega)
        refine ⟨pj, ?_, ?_, ?_⟩
        · show (g.current_players.set 0 (updContribution 0 p0)).get? (1 + j)
            = some pj
          rw [List.get?_set_ne _ _ (by omega)]
          exact hpj
        · show pj.bet_amount + 0 = 0
          rw [hbets pj (List.get?_mem hpj)]
          ring
        · show pj.id ≠ p0.id
          exact nodup_ids_ne g.current_players hn hpj hget0 (by omega))
  rw [hblockEq1]
  -- the state after the opening check and the n middle checks
  have hL1map : (List.map Player.id
      (afterBlock (postOpen g 0 p0) 0 1 n).game.current_players)
      = g.current_players.map Player.id := by
    show (List.map Player.id (updBlock 0
      (g.current_players.set 0 (updContribution 0 p0)) 1 n))
      = g.current_players.map Player.id
    rw [updBlock_map_id, hmapS]
  have hL1len : (afterBlock (postOpen g 0 p0) 0 1 n).game.current_players.length
      = n + 2 := by
    show (updBlock 0 (g.current_players.set 0 (updContribution 0 p0)) 1 n).length
      = n + 2
    rw [updBlock_length, List.length_set]
    exact hN
  have hL1idx : (afterBlock (postOpen g 0 p0) 0 1 n).idx = ((1 + n : Nat) : Int) := rfl
  have hgetA1 : (afterBlock (postOpen g 0 p0) 0 1 n).game.current_players.get?
      ((afterBlock (postOpen g 0 p0) 0 1 n).idx.toNat) = some plast := by
    rw [hL1idx, Int.toNat_natCast]
    show (updBlock 0 (g.current_players.set 0 (updContribution 0 p0)) 1 n).get?
      (1 + n) = some plast
    rw [updBlock_get?_ge 0 n _ 1 (1 + n) (by omega)]
    rw [List.get?_set_ne _ _ (by omega)]
    rw [Nat.add_comm 1 n]
    exact hgetL
  have hstopA1 : stopRound (afterBlock (postOpen g 0 p0) 0 1 n) = false := by
    apply stopRound_eq_false _ plast hgetA1
    · show plast.id ≠ p0.id
      exact hne0L.symm
    · rw [hL1len]
      omega
  have hltA1 : (afterBlock (postOpen g 0 p0) 0 1 n).idx
      < ((afterBlock (postOpen g 0 p0) 0 1 n).game.current_players.length : Int) := by
    rw [hL1idx, hL1len]
    exact_mod_cast (by omega : 1 + n < n + 2)
  rw [runRound_cons r (List.replicate (n + 1) r)
    (afterBlock (postOpen g 0 p0) 0 1 n) hltA1 hstopA1]
  have hnA1 : ((afterBlock (postOpen g 0 p0) 0 1 n).game.current_players.map
      Player.id).Nodup := by
    rw [hL1map]
    exact hn
  have hgeA1 : plast.bet_amount + r
      ≥ (afterBlock (postOpen g 0 p0) 0 1 n).game.current_bet := by
    show plast.bet_amount + r ≥ 0
    omega
  have hraiseA1 : r > (afterBlock (postOpen g 0 p0) 0 1 n).game.current_bet := by
    show r > 0
    omega
  rw [actOn_accept_eq (afterBlock (postOpen g 0 p0) 0 1 n) plast r hgetA1 hnA1
    (by omega) hgeA1]
  simp only [hbL, zero_add, if_pos hraiseA1]
  rw [runRound_wrap (List.replicate (n + 1) r) _]
  rw [hwrapAll _ (by
    dsimp only
    rw [List.length_set, hL1len, hL1idx]
    push_cast
    omega)]
  have hIdxNat : (afterBlock (postOpen g 0 p0) 0 1 n).idx.toNat = 1 + n := by
    rw [hL1idx, Int.toNat_natCast]
  have hs4map : (List.map Player.id
      ((afterBlock (postOpen g 0 p0) 0 1 n).game.current_players.set
        (afterBlock (postOpen g 0 p0) 0 1 n).idx.toNat (updContribution r plast)))
      = g.current_players.map Player.id := by
    rw [map_id_set_samekey _ _ plast (updContribution r plast) hgetA1 rfl]
    exact hL1map
  obtain ⟨ms2, hblockEq2⟩ := runRound_callBlock r (by omega) (n + 1) []
    { game :=
        { players := (afterBlock (postOpen g 0 p0) 0 1 n).game.players
          pot := (afterBlock (postOpen g 0 p0) 0 1 n).game.pot + r
          current_bet := r
          current_players :=
            (afterBlock (postOpen g 0 p0) 0 1 n).game.current_players.set
              (afterBlock (postOpen g 0 p0) 0 1 n).idx.toNat
              (updContribution r plast) }
      first_highest_bet := plast.id
      idx := 0 }
    0
    (by simp)
    (by dsimp only
        rw [List.length_set, hL1len]
        omega)
    (by dsimp only
        rw [List.length_set, hL1len]
        omega)
    (by dsimp only
        rw [hs4map]
        exact hn)
    (by intro j hj
        dsimp only
        rw [hIdxNat]
        rw [show (0 + j : Nat) = j from by omega]
        by_cases hj0 : j = 0
        · subst hj0
          refine ⟨updContribution 0 p0, ?_, ?_, ?_⟩
          · rw [List.get?_set_ne _ _ (by omega)]
            show (updBlock 0 (g.current_players.set 0 (updContribution 0 p0)) 1 n).get? 0
              = some (updContribution 0 p0)
            rw [updBlock_get?_lt 0 n _ 1 0 (by omega)]
            rw [List.get?_eq_getElem?, List.getElem?_set_self (by omega)]
          · show (p0.bet_amount + 0) + r = r
            rw [hb0]
            ring
          · show p0.id ≠ plast.id
            exact hne0L
        · obtain ⟨pj, hpj⟩ := get?_is_some_of_lt g.current_players j (by omega)
          refine ⟨updContribution 0 pj, ?_, ?_, ?_⟩
          · rw [List.get?_set_ne _ _ (by omega)]
            show (updBlock 0 (g.current_players.set 0 (updContribution 0 p0)) 1 n).get? j
              = some (updContribution 0 pj)
            rw [updBlock_get?_mem 0 n _ 1 j (by omega) (by omega)
              (by rw [List.length_set]; omega)]
            rw [List.get?_set_ne _ _ (by omega), hpj]
            rfl
          · show (pj.bet_amount + 0) + r = r
            rw [hbets pj (List.get?_mem hpj)]
            ring
          · show pj.id ≠ plast.id
            exact nodup_ids_ne g.current_players hn hpj hgetL (by omega))
  dsimp only
  rw [show List.replicate (n + 1) r = List.replicate (n + 1) r ++ [] by simp]
  rw [hblockEq2]
  constructor
  · show (runRound [] _).done = true
    simp only [runRound]
    rw [hwrapLt _ (by
      show ((0 + (n + 1) : Nat) : Int)
          < ((updBlock r
              ((afterBlock (postOpen g 0 p0) 0 1 n).game.current_players.set
                (afterBlock (postOpen g 0 p0) 0 1 n).idx.toNat
                (updContribution r plast))
              0 (n + 1)).length : Int)
      rw [updBlock_length, List.length_set, hL1len]
      push_cast
      omega)]
    apply stopRound_eq_true_of_fhb _ (updContribution r plast)
    · show (updBlock r _ 0 (n + 1)).get? ((((0 + (n + 1) : Nat)) : Int).toNat)
        = some (updContribution r plast)
      rw [Int.toNat_natCast]
      rw [updBlock_get?_ge r (n + 1) _ 0 (0 + (n + 1)) (by omega)]
      rw [show (0 + (n + 1) : Nat) = n + 1 by omega]
      rw [hIdxNat]
      rw [show (1 + n : Nat) = n + 1 by omega]
      rw [List.get?_eq_getElem?,
        List.getElem?_set_self (by rw [hL1len]; omega)]
    · rfl
  · have hE2 : (runRound []
        (afterBlock
          { game :=
              { players := (afterBlock (postOpen g 0 p0) 0 1 n).game.players
                pot := (afterBlock (postOpen g 0 p0) 0 1 n).game.pot + r
                current_bet := r
                current_players :=
                  (afterBlock (postOpen g 0 p0) 0 1 n).game.current_players.set
                    (afterBlock (postOpen g 0 p0) 0 1 n).idx.toNat
                    (updContribution r plast) }
            first_highest_bet := plast.id
            idx := 0 }
          r 0 (n + 1))).events = [] := by
      simp [runRound]
    rw [hE2]
    rw [show (postOpen g 0 p0).game.current_players
        = g.current_players.set 0 (updContribution 0 p0) from rfl]
    rw [hmapS]
    dsimp only
    rw [hs4map]
    rfl

/-- C3 (amended): in a betting round started with `N ≥ 2` active players,
the `-2` sentinel and `first_highest_bet = "none"`: if every player checks
(no accepted action strictly exceeds the clamped standing bet), the round
resolves after exactly `N` accepted actions with zero raises; and if the
LAST seat of the first pass makes the single raise (earlier seats check,
the other `N - 1` players then call), it resolves after exactly `2N - 1`
accepted actions with exactly one raise.  (A single raise made by seat `k`
instead yields `N + k` accepted actions, so the claim's `2N - 1` holds only
for the last seat — see the counterexample.) -/
theorem betting_round_action_counts (g : PokerGame) (N : Nat) (r : Int)
    (hN : g.current_players.length = N) (h2 : 2 ≤ N)
    (hn : (g.current_players.map Player.id).Nodup)
    (hbets : ∀ p ∈ g.current_players, p.bet_amount = 0)
    (hnone : ∀ p ∈ g.current_players, p.id ≠ "none")
    (hr : 0 < r) :
    ((runRound (List.replicate N 0) (initRound g)).done = true ∧
     (runRound (List.replicate N 0) (initRound g)).events.countP isAcceptEvent
       = N ∧
     (runRound (List.replicate N 0) (initRound g)).events.countP isRaiseEvent
       = 0) ∧
    ((runRound (List.replicate (N - 1) 0 ++ r :: List.replicate (N - 1) r)
        (initRound g)).done = true ∧
     (runRound (List.replicate (N - 1) 0 ++ r :: List.replicate (N - 1) r)
        (initRound g)).events.countP isAcceptEvent = 2 * N - 1 ∧
     (runRound (List.replicate (N - 1) 0 ++ r :: List.replicate (N - 1) r)
        (initRound g)).events.countP isRaiseEvent = 1) := by
  obtain ⟨n, rfl⟩ : ∃ n, N = n + 2 := ⟨N - 2, by omega⟩
  obtain ⟨p0, hget0⟩ := get?_is_some_of_lt g.current_players 0 (by omega)
  obtain ⟨plast, hgetL⟩ := get?_is_some_of_lt g.current_players (n + 1) (by omega)
  obtain ⟨hdoneA, heventsA⟩ := runRound_all_checks g n p0 hN hget0 hn hbets hnone
  obtain ⟨hdoneB, heventsB⟩ :=
    runRound_raise_last g n p0 plast r hN hget0 hgetL hn hbets hnone hr
  have hscript : (List.replicate (n + 2 - 1) (0 : Int)
      ++ r :: List.replicate (n + 2 - 1) r)
      = 0 :: (List.replicate n 0 ++ r :: List.replicate (n + 1) r) := by
    rw [show (n + 2 - 1) = n + 1 by omega]
    rfl
  refine ⟨⟨hdoneA, ?_, ?_⟩, ?_⟩
  · rw [heventsA, List.countP_cons, blockEvents_countP_accept]
    simp [isAcceptEvent]
  · rw [heventsA, List.countP_cons, blockEvents_countP_raise]
    simp [isRaiseEvent]
  · rw [hscript]
    refine ⟨hdoneB, ?_, ?_⟩
    · rw [heventsB]
      rw [List.countP_cons, List.countP_append, List.countP_cons,
        List.countP_append]
      rw [blockEvents_countP_accept, blockEvents_countP_accept]
      simp [isAcceptEvent]
      omega
    · rw [heventsB]
      rw [List.countP_cons, List.countP_append, List.countP_cons,
        List.countP_append]
      rw [blockEvents_countP_raise, blockEvents_countP_raise]
      have h1 : isRaiseEvent (StepEvent.accept plast.id r 0 r) = true := by
        simp only [isRaiseEvent, decide_eq_true_eq]
        simp
        omega
      have h0 : isRaiseEvent (StepEvent.accept p0.id 0 (-2) 0) = false := by
        simp [isRaiseEvent]
      rw [h1, h0]
      simp

/-- Three-seat table used by the C3 theorem's witness and counterexample. -/
def threeSeatGame : PokerGame :=
  { players := [], pot := 15, current_bet := 0,
    current_players :=
      [⟨"A", [], false, 0, 0, 0⟩, ⟨"B", [], false, 0, 0, 0⟩,
        ⟨"C", [], false, 0, 0, 0⟩] }

/-- C3 (counterexample to the claim as stated): with 3 players, when the
single raise is the OPENING action (seat 0 bets 5, strictly above the
clamped standing bet 0; the other two seats call), exactly one raise occurs
followed by `N - 1 = 2` calls, yet the round resolves after 3 accepted
actions — not `2N - 1 = 5`. -/
theorem betting_round_one_raise_counterexample :
    (runRound [5, 5, 5] (initRound threeSeatGame)).events
      = [StepEvent.accept "A" 5 (-2) 5, StepEvent.accept "B" 5 5 5,
         StepEvent.accept "C" 5 5 5] ∧
    (runRound [5, 5, 5] (initRound threeSeatGame)).done = true ∧
    (runRound [5, 5, 5] (initRound threeSeatGame)).events.countP isRaiseEvent
      = 1 ∧
    (runRound [5, 5, 5] (initRound threeSeatGame)).events.countP isAcceptEvent
      = 3 ∧
    ¬((3 : Nat) = 2 * 3 - 1) :=
  ⟨rfl, rfl, rfl, rfl, by decide⟩

/-- Witness for C3 (amended) at the three-seat table with raise 5. -/
theorem betting_round_action_counts_witness :
    ((runRound (List.replicate 3 0) (initRound threeSeatGame)).done = true ∧
     (runRound (List.replicate 3 0)
        (initRound threeSeatGame)).events.countP isAcceptEvent = 3 ∧
     (runRound (List.replicate 3 0)
        (initRound threeSeatGame)).events.countP isRaiseEvent = 0) ∧
    ((runRound (List.replicate (3 - 1) 0 ++ 5 :: List.replicate (3 - 1) 5)
        (initRound threeSeatGame)).done = true ∧
     (runRound (List.replicate (3 - 1) 0 ++ 5 :: List.replicate (3 - 1) 5)
        (initRound threeSeatGame)).events.countP isAcceptEvent = 2 * 3 - 1 ∧
     (runRound (List.replicate (3 - 1) 0 ++ 5 :: List.replicate (3 - 1) 5)
        (initRound threeSeatGame)).events.countP isRaiseEvent = 1) :=
  betting_round_action_counts threeSeatGame 3 5 (by decide) (by decide)
    (by decide) (by decide) (by decide) (by decide)

/-- `deal_one` (`Vec::pop`).  `Deck::new()` shuffles with external
randomness, so the model's deck parameter simply lists the cards in the
order they will be dealt; dealing takes the head. -/
def dealOne : List Card → Option Card × List Card
  | [] => (none, [])
  | c :: rest => (some c, rest)

/-- One pass of `for player in current_players { if let Some(card) =
deal_one() { player.hand.push(card) } }`. -/
def dealRoundToEach : List Player → List Card → List Player × List Card
  | [], deck => ([], deck)
  | p :: ps, deck =>
    match dealOne deck with
    | (some c, deck1) =>
      let r := dealRoundToEach ps deck1
      ({ p with hand := p.hand ++ [c] } :: r.1, r.2)
    | (none, deck1) =>
      let r := dealRoundToEach ps deck1
      (p :: r.1, r.2)

/-- `for _ in 0..n { for player in current_players { … } }`. -/
def iterDeal : Nat → List Player → List Card → List Player × List Card
  | 0, ps, deck => (ps, deck)
  | n + 1, ps, deck =>
    let r := dealRoundToEach ps deck
    iterDeal n r.1 r.2

/-- `deal_cards` of `five_card_draw.rs`: take a fresh deck, clear hands and
folded flags, then deal 5 interleaved passes of one card each. -/
def deal_cards (g : PokerGame) (fresh : List Card) : PokerGame × List Card :=
  let cleared := g.current_players.map (fun p => { p with hand := ([] : List Card), folded := false })
  let r := iterDeal 5 cleared fresh
  ({ g with current_players := r.1 }, r.2)

/-- The per-player inner loop of `replace_cards`: for each requested index
deal one card (the card is consumed even when the index is out of range) and
overwrite that hand position. -/
def replaceForPlayer : Player → List Nat → List Card → Player × List Card
  | p, [], deck => (p, deck)
  | p, idx :: idxs, deck =>
    match dealOne deck with
    | (some c, deck1) =>
      replaceForPlayer
        (if idx < p.hand.length then { p with hand := p.hand.set idx c } else p)
        idxs deck1
    | (none, deck1) => replaceForPlayer p idxs deck1

/-- `replace_cards` of `five_card_draw.rs`: every player whose id matches
replaces the requested hand positions with freshly dealt cards. -/
def replaceCardsGo : List Player → String → List Nat → List Card →
    List Player × List Card
  | [], _, _, deck => ([], deck)
  | p :: ps, pid, idxs, deck =>
    if p.id == pid then
      let r1 := replaceForPlayer p idxs deck
      let r2 := replaceCardsGo ps pid idxs r1.2
      (r1.1 :: r2.1, r2.2)
    else
      let r := replaceCardsGo ps pid idxs deck
      (p :: r.1, r.2)

def replace_cards (g : PokerGame) (deck : List Card) (pid : String)
    (idxs : List Nat) : PokerGame × List Card :=
  let r := replaceCardsGo g.current_players pid idxs deck
  ({ g with current_players := r.1 }, r.2)

/-- The swap phase of `run_five_card_game`: the ids of the active players
are collected up front, then each in turn replaces the indices fetched for
them (modelled as the `swaps` list, aligned with the collected ids). -/
def swapGo : List String → List (List Nat) → PokerGame → List Card →
    PokerGame × List Card
  | [], _, g, deck => (g, deck)
  | pid :: pids, swaps, g, deck =>
    let r := replace_cards g deck pid (swaps.headD [])
    swapGo pids swaps.tail r.1 r.2

def swapPhaseRun (g : PokerGame) (deck : List Card) (swaps : List (List Nat)) :
    PokerGame × List Card :=
  swapGo (g.current_players.map Player.id) swaps g deck

/-- `PokerGame::new` of `five_card_draw.rs`. -/
def PokerGame.new (player_ids : List String) : PokerGame :=
  { players := [], pot := 0, current_bet := 0,
    current_players := player_ids.map (fun id => ⟨id, [], false, 0, 0, 0⟩) }

/-- The phases `run_five_card_game` can perform, in order. -/
inductive Phase
  | anteCollection
  | dealing
  | bettingRound1
  | cardSwap
  | bettingRound2
  | showdownPhase
deriving DecidableEq, Repr

structure GameOutcome where
  phases : List Phase
  winner : Option String
  finalGame : PokerGame
deriving Repr

/-- Ante collection and dealing at the start of `run_five_card_game`:
collect the ante of 5 from every player, then deal from a fresh deck. -/
def fiveCardDealt (player_names : List String) (fresh : List Card) :
    PokerGame × List Card :=
  deal_cards (collectAnte (PokerGame.new player_names) 5) fresh

/-- The first betting round of `run_five_card_game`. -/
def fiveCardRound1 (player_names : List String) (fresh : List Card)
    (round1 : List Int) : RoundResult :=
  runRound round1 (initRound (fiveCardDealt player_names fresh).1)

/-- The game state after the swap phase and the bet reset that precede the
second betting round of `run_five_card_game`. -/
def fiveCardAfterSwap (player_names : List String) (fresh : List Card)
    (round1 : List Int) (swaps : List (List Nat)) : PokerGame :=
  let gs := swapPhaseRun (fiveCardRound1 player_names fresh round1).state.game
    (fiveCardDealt player_names fresh).2 swaps
  { gs.1 with
    current_players := gs.1.current_players.map
      (fun p => { p with bet_amount := 0 }) }

/-- The second betting round of `run_five_card_game`. -/
def fiveCardRound2 (player_names : List String) (fresh : List Card)
    (round1 : List Int) (swaps : List (List Nat)) (round2 : List Int) :
    RoundResult :=
  runRound round2
    (initRound (fiveCardAfterSwap player_names fresh round1 swaps))

/-- `run_five_card_game` of `five_card_game.rs`, with the external inputs
(deal order of the shuffled decks, each round's fetched responses, each
player's fetched swap indices) passed as parameters: collect the ante of 5,
deal, run betting round one; if a single player remains declare them winner
and stop; otherwise run the swap phase, reset the bets, run betting round
two; if a single player remains declare them winner and stop; otherwise
evaluate the showdown via `determine_winner_id`. -/
def run_five_card_game (player_names : List String) (fresh : List Card)
    (round1 : List Int) (swaps : List (List Nat)) (round2 : List Int) :
    GameOutcome :=
  let r1 := fiveCardRound1 player_names fresh round1
  if r1.state.game.current_players.length == 1 then
    { phases := [.anteCollection, .dealing, .bettingRound1],
      winner := r1.state.game.current_players.head?.map Player.id,
      finalGame := r1.state.game }
  else
    let r2 := fiveCardRound2 player_names fresh round1 swaps round2
    if r2.state.game.current_players.length == 1 then
      { phases := [.anteCollection, .dealing, .bettingRound1, .cardSwap,
          .bettingRound2],
        winner := r2.state.game.current_players.head?.map Player.id,
        finalGame := r2.state.game }
    else
      { phases := [.anteCollection, .dealing, .bettingRound1, .cardSwap,
          .bettingRound2, .showdownPhase],
        winner := determine_winner_id r2.state.game,
        finalGame := r2.state.game }

/-- C7: if a betting round leaves exactly one active player, the
orchestrator reports that player as the winner and returns: after round one
it performs no swap phase, no second betting round and no showdown; after
round two it performs no showdown. -/
theorem single_survivor_ends_game (player_names : List String)
    (fresh : List Card) (round1 : List Int) (swaps : List (List Nat))
    (round2 : List Int) :
    ((fiveCardRound1 player_names fresh round1).state.game.current_players.length
        = 1 →
      (run_five_card_game player_names fresh round1 swaps round2).winner
        = (fiveCardRound1 player_names fresh
            round1).state.game.current_players.head?.map Player.id ∧
      (run_five_card_game player_names fresh round1 swaps round2).phases
        = [.anteCollection, .dealing, .bettingRound1] ∧
      Phase.cardSwap
        ∉ (run_five_card_game player_names fresh round1 swaps round2).phases ∧
      Phase.bettingRound2
        ∉ (run_five_card_game player_names fresh round1 swaps round2).phases ∧
      Phase.showdownPhase
        ∉ (run_five_card_game player_names fresh round1 swaps round2).phases) ∧
    ((fiveCardRound1 player_names fresh round1).state.game.current_players.length
        ≠ 1 →
      (fiveCardRound2 player_names fresh round1 swaps
          round2).state.game.current_players.length = 1 →
      (run_five_card_game player_names fresh round1 swaps round2).winner
        = (fiveCardRound2 player_names fresh round1 swaps
            round2).state.game.current_players.head?.map Player.id ∧
      (run_five_card_game player_names fresh round1 swaps round2).phases
        = [.anteCollection, .dealing, .bettingRound1, .cardSwap,
            .bettingRound2] ∧
      Phase.showdownPhase
        ∉ (run_five_card_game player_names fresh round1 swaps round2).phases) := by
  constructor
  · intro h
    have hcond : ((fiveCardRound1 player_names fresh
        round1).state.game.current_players.length == 1) = true := by
      rw [h]
      rfl
    simp only [run_five_card_game, hcond, if_true]
    simp
  · intro hne h2
    have hcond : ((fiveCardRound1 player_names fresh
        round1).state.game.current_players.length == 1) = false := by
      simp only [beq_eq_false_iff_ne, ne_eq]
      exact hne
    have hcond2 : ((fiveCardRound2 player_names fresh round1 swaps
        round2).state.game.current_players.length == 1) = true := by
      rw [h2]
      rfl
    simp only [run_five_card_game, hcond, Bool.false_eq_true, if_false,
      hcond2, if_true]
    simp

/-- Concrete deck, in deal order, for the C7 witness. -/
def demoDeck : List Card :=
  [⟨2, .Hearts⟩, ⟨3, .Hearts⟩, ⟨4, .Hearts⟩, ⟨5, .Hearts⟩, ⟨6, .Hearts⟩,
    ⟨7, .Hearts⟩, ⟨8, .Hearts⟩, ⟨9, .Hearts⟩, ⟨10, .Hearts⟩, ⟨11, .Hearts⟩]

/-- Witness for C7: a two-player game where player A folds in round one,
leaving B the immediate winner with no swap, second round or showdown. -/
theorem single_survivor_ends_game_witness :
    (fiveCardRound1 ["A", "B"] demoDeck
        [-1]).state.game.current_players.length = 1 ∧
    ((run_five_card_game ["A", "B"] demoDeck [-1] [] []).winner
        = (fiveCardRound1 ["A", "B"] demoDeck
            [-1]).state.game.current_players.head?.map Player.id ∧
      (run_five_card_game ["A", "B"] demoDeck [-1] [] []).phases
        = [.anteCollection, .dealing, .bettingRound1] ∧
      Phase.cardSwap ∉ (run_five_card_game ["A", "B"] demoDeck [-1] [] []).phases ∧
      Phase.bettingRound2
        ∉ (run_five_card_game ["A", "B"] demoDeck [-1] [] []).phases ∧
      Phase.showdownPhase
        ∉ (run_five_card_game ["A", "B"] demoDeck [-1] [] []).phases) :=
  ⟨by decide,
   (single_survivor_ends_game ["A", "B"] demoDeck [-1] [] []).1 (by decide)⟩

end Poker
